import Mathlib

/-!
# Tic-tac-toe (`script.js`): game state machine and AI move selector

A shallow embedding of `script.js`.  The DOM is represented by the part of it
that the script reads and writes: the text of the nine `.square` elements, their
`winner` class, the three name inputs, the visible section and the modal
dialog.  The script's global variables become the remaining fields of `Game`.

Modelling conventions
* `square.textContent` only ever receives `""`, `x` or `o`; it is a `Cell`.
  JavaScript truthiness of the text is `Cell.truthy`.
* `StatusGame` only ever receives `""`, `"P1"`, `"P2"` or `"Pause"`.
* `Math.random()` yields a double in `[0, 1)`, that is `mant * 2 ^ (-exp)` with
  `mant < 2 ^ 53` and `53 ≤ exp ≤ 1074`.  `Math.floor (r * n)` is `floorMul`: the
  exact product is rounded to 53 significant bits, ties to even, and then floored.
  Successive calls read successive entries of a stream.
* `handleTurn` and `makeAIMove` call each other; the embedding recurses on a
  fuel argument and returns `none` when the fuel is exhausted.
-/

namespace TicTacToe

/-! ## Data model -/

/-- Text content of a square: `""`, `x = "✕"` or `o = "◯"`. -/
inductive Cell where
  | empty
  | x
  | o
  deriving DecidableEq, Repr

/-- JavaScript truthiness of a square's text: only `""` is falsy. -/
def Cell.truthy : Cell → Bool
  | .empty => false
  | _ => true

/-- The nine `.square` elements, by index. -/
abbrev Board := Fin 9 → Cell

/-- Values taken by the global `StatusGame`. -/
inductive Status where
  | unset
  | P1
  | P2
  | Pause
  deriving DecidableEq, Repr

/-- Values taken by the global `nextStarter`. -/
inductive Starter where
  | P1
  | P2
  deriving DecidableEq, Repr

/-- The string stored in `StatusGame` when it is assigned from `nextStarter`. -/
def Starter.toStatus : Starter → Status
  | .P1 => .P1
  | .P2 => .P2

/-- Values taken by the global `AIDifficulty`. -/
inductive Difficulty where
  | easy
  | medium
  | hard
  deriving DecidableEq, Repr

/-- The four sections switched by `showSection`. -/
inductive Section where
  | mainMenu
  | playerInputs1v1
  | playerInputsVsAI
  | board
  deriving DecidableEq, Repr

/-- A winning pattern `[a, b, c]`. -/
abbrev Pattern := Fin 9 × Fin 9 × Fin 9

/-- One value returned by `Math.random()`: the double `mant * 2 ^ (-exp)` in `[0, 1)`.
Every double in `[0, 1)` has this form (normal numbers with `2 ^ 52 ≤ mant`, subnormal
numbers with `exp = 1074`) and every such value is a double. -/
structure Rand where
  mant : Nat
  exp : Nat
  mant_lt : mant < 2 ^ 53
  exp_ge : 53 ≤ exp
  exp_le : exp ≤ 1074

/-- The values returned by successive calls of `Math.random()`. -/
abbrev RandSrc := Nat → Rand

/-- The stream after one call of `Math.random()`. -/
def RandSrc.next (rnd : RandSrc) : RandSrc := fun n => rnd (n + 1)

/-- Global variables of the script together with the DOM state it touches. -/
structure Game where
  squares : Board
  winnerClass : Fin 9 → Bool
  StatusGame : Status
  nextStarter : Starter
  player1Name : String
  player2Name : String
  isPlayingWithAI : Bool
  AIDifficulty : Difficulty
  inputPlayer1Name : String
  inputPlayer2Name : String
  inputPlayer1NameAI : String
  shown : Section
  modalOpen : Bool
  modalText : String

/-- The constant `winPatterns`, in declaration order. -/
def winPatterns : List Pattern :=
  [ (0, 1, 2),
    (3, 4, 5),
    (6, 7, 8),
    (0, 3, 6),
    (1, 4, 7),
    (2, 5, 8),
    (0, 4, 8),
    (2, 4, 6) ]

/-! ## Win and draw detection -/

/-- The condition tested inside the loop of `checkWinner` for `[a, b, c]`. -/
def lineComplete (sq : Board) (p : Pattern) : Bool :=
  (sq p.1).truthy && (sq p.1 == sq p.2.1) && (sq p.1 == sq p.2.2)

/-- The function `checkWinner`: the first pattern whose test succeeds, or `null`. -/
def checkWinner (sq : Board) : Option Pattern :=
  winPatterns.find? (lineComplete sq)

/-- The function `isDraw`: `[...squares].every((square) => square.textContent)`. -/
def isDraw (sq : Board) : Bool :=
  (List.ofFn sq).all Cell.truthy

/-! ## Session control -/

/-- The function `showSection`. -/
def showSection (s : Section) (g : Game) : Game :=
  { g with shown := s }

/-- The function `clearPlayerNames`. -/
def clearPlayerNames (g : Game) : Game :=
  { g with
    inputPlayer1Name := ""
    inputPlayer2Name := ""
    inputPlayer1NameAI := ""
    nextStarter := .P1 }

/-- The function `cleanGameBoard`: it clears the text and the `winner` class of every square.
The dialog is left as it is; only `resetGame` closes it. -/
def cleanGameBoard (g : Game) : Game :=
  { g with squares := fun _ => .empty, winnerClass := fun _ => false }

/-- Characters removed by `String.prototype.trim`: ECMAScript white space and line
terminators. -/
def isTrimChar (c : Char) : Bool :=
  let n := c.toNat
  n = 0x9 || n = 0xA || n = 0xB || n = 0xC || n = 0xD || n = 0x20 || n = 0xA0 || n = 0x1680
    || (0x2000 ≤ n && n ≤ 0x200A) || n = 0x2028 || n = 0x2029 || n = 0x202F || n = 0x205F
    || n = 0x3000 || n = 0xFEFF

/-- The method `trim` of a string. -/
def trim (s : String) : String :=
  String.mk ((s.data.dropWhile isTrimChar).reverse.dropWhile isTrimChar).reverse

/-- The function `validateNames`: the new state and the returned boolean. -/
def validateNames (g : Game) : Game × Bool :=
  let p1 := trim (if g.isPlayingWithAI then g.inputPlayer1NameAI else g.inputPlayer1Name)
  let p2 := if g.isPlayingWithAI then "AI" else trim g.inputPlayer2Name
  let g1 := { g with player1Name := p1, player2Name := p2 }
  if p1 == "" || (!g.isPlayingWithAI && p2 == "") then (g1, false) else (g1, true)

/-- The function `startGame`. -/
def startGame (g : Game) : Game :=
  let (g1, ok) := validateNames g
  if !ok then g1
  else
    let g2 := { g1 with StatusGame := g1.nextStarter.toStatus }
    let g3 := showSection .board (cleanGameBoard g2)
    { g3 with nextStarter := if g3.nextStarter = .P1 then .P2 else .P1 }

/-- The function `resetGame`. -/
def resetGame (restart : Bool) (g : Game) : Game :=
  let g1 := { cleanGameBoard g with modalOpen := false }
  if restart then { g1 with StatusGame := g1.nextStarter.toStatus }
  else { showSection .mainMenu (clearPlayerNames g1) with StatusGame := .P1 }

/-- The function `viewModal`. -/
def viewModal (text : String) (g : Game) : Game :=
  { g with modalText := text, modalOpen := true }

/-- The function `endGame`. -/
def endGame (winnerPositions : Pattern) (g : Game) : Game :=
  let cls : Fin 9 → Bool := fun i =>
    g.winnerClass i || (i == winnerPositions.1) || (i == winnerPositions.2.1)
      || (i == winnerPositions.2.2)
  let winnerName := if g.StatusGame = .P1 then g.player1Name else g.player2Name
  let g1 := viewModal (winnerName ++ " has won") { g with winnerClass := cls }
  { g1 with StatusGame := .Pause }

/-- The function `togglePlayer`. -/
def togglePlayer (g : Game) : Game :=
  { g with StatusGame := if g.StatusGame = .P1 then .P2 else .P1 }

/-! ## AI move selector -/

/-- Indices of the squares kept by `[...squares].filter((sq) => !sq.textContent)`. -/
def availableSquares (sq : Board) : List (Fin 9) :=
  (List.finRange 9).filter (fun i => !(sq i).truthy)

/-- The number of bits by which `x` exceeds 53 bits, for `x < 2 ^ (53 + fuel)`. -/
def excessBits : Nat → Nat → Nat
  | 0, _ => 0
  | fuel + 1, x => if x < 2 ^ 53 then 0 else excessBits fuel (x / 2) + 1

/-- The expression `Math.floor(r * n)` for a random value `r` and an array length `n`
(an integer below `2 ^ 53`, hence itself a double).  The exact product is
`r.mant * n * 2 ^ (-r.exp)`, an integer of at most 106 bits scaled by `2 ^ (-r.exp)`; IEEE 754
multiplication keeps its 53 leading bits, rounding the `drop` bits beyond them to nearest,
ties to even; `Math.floor` then takes the integer part. -/
def floorMul (r : Rand) (n : Nat) : Nat :=
  let exact := r.mant * n
  let drop := excessBits 53 exact
  let q := exact / 2 ^ drop
  let rest := exact % 2 ^ drop
  let rounded := if 2 ^ drop < 2 * rest ∨ (2 ^ drop = 2 * rest ∧ q % 2 = 1) then q + 1 else q
  rounded * 2 ^ drop / 2 ^ r.exp

/-- The function `getRandomMove`: the chosen square and the remaining random stream. -/
def getRandomMove (rnd : RandSrc) (sq : Board) : Option (Fin 9) × RandSrc :=
  let avail := availableSquares sq
  if avail.length = 0 then (none, rnd)
  else (avail[floorMul (rnd 0) avail.length]?, rnd.next)

/-- The inner loop shared by `getBlockingMove` and `getWinningMove`: the pair
`(count, emptyIndex)` after visiting the three indices of a pattern, `emptyIndex = -1`
being `none`. -/
def scanPattern (mark : Cell) (sq : Board) (p : Pattern) : Nat × Option (Fin 9) :=
  [p.1, p.2.1, p.2.2].foldl
    (fun acc index =>
      if sq index = mark then (acc.1 + 1, acc.2)
      else if !(sq index).truthy then (acc.1, some index)
      else acc)
    (0, none)

/-- The outer loop shared by `getBlockingMove` and `getWinningMove`. -/
def findTwoAndEmpty (mark : Cell) (sq : Board) : List Pattern → Option (Fin 9)
  | [] => none
  | p :: rest =>
    match scanPattern mark sq p with
    | (count, some emptyIndex) =>
      if count = 2 then some emptyIndex else findTwoAndEmpty mark sq rest
    | (_, none) => findTwoAndEmpty mark sq rest

/-- The function `getBlockingMove`. -/
def getBlockingMove (sq : Board) : Option (Fin 9) :=
  findTwoAndEmpty .x sq winPatterns

/-- The function `getWinningMove`. -/
def getWinningMove (sq : Board) : Option (Fin 9) :=
  findTwoAndEmpty .o sq winPatterns

/-- JavaScript `a || b` on element-or-null values where `b` may call `Math.random()`. -/
def orElseRnd (a : Option (Fin 9)) (rnd : RandSrc) (b : RandSrc → Option (Fin 9) × RandSrc) :
    Option (Fin 9) × RandSrc :=
  match a with
  | some m => (some m, rnd)
  | none => b rnd

/-- The `switch (AIDifficulty)` of `makeAIMove`: the selected square. -/
def selectMove (d : Difficulty) (rnd : RandSrc) (sq : Board) : Option (Fin 9) × RandSrc :=
  match d with
  | .easy => getRandomMove rnd sq
  | .medium => orElseRnd (getBlockingMove sq) rnd (fun r => getRandomMove r sq)
  | .hard =>
    orElseRnd (getWinningMove sq) rnd
      (fun r => orElseRnd (getBlockingMove sq) r (fun r2 => getRandomMove r2 sq))

/-! ## Turn handling -/

/-- The assignment `square.textContent = StatusGame === "P1" ? x : o` of the click listener. -/
def placeMark (i : Fin 9) (g : Game) : Game :=
  { g with squares := Function.update g.squares i (if g.StatusGame = .P1 then .x else .o) }

/-- The assignment `move.textContent = o` of `makeAIMove`. -/
def placeAIMark (move : Fin 9) (g : Game) : Game :=
  { g with squares := Function.update g.squares move .o }

mutual

/-- The function `handleTurn`. -/
def handleTurn : Nat → RandSrc → Game → Option Game
  | 0, _, _ => none
  | fuel + 1, rnd, g =>
    match checkWinner g.squares with
    | some winnerPosition => some (endGame winnerPosition g)
    | none =>
      if isDraw g.squares then some (viewModal "Draw" g)
      else
        let g1 := togglePlayer g
        if g1.isPlayingWithAI && g1.StatusGame == .P2 then makeAIMove fuel rnd g1
        else some g1

/-- The function `makeAIMove`. -/
def makeAIMove : Nat → RandSrc → Game → Option Game
  | 0, _, _ => none
  | fuel + 1, rnd, g =>
    match selectMove g.AIDifficulty rnd g.squares with
    | (some move, rnd1) =>
      handleTurn fuel rnd1 (placeAIMark move g)
    | (none, _) => some g

end

/-- Fuel that suffices for one click: `handleTurn`, `makeAIMove`, `handleTurn`. -/
def clickFuel : Nat := 3

/-- The click listener of square `i`. -/
def click (rnd : RandSrc) (i : Fin 9) (g : Game) : Option Game :=
  if g.StatusGame = .Pause || (g.squares i).truthy
      || (g.isPlayingWithAI && g.StatusGame == .P2) then some g
  else handleTurn clickFuel rnd (placeMark i g)

/-- The function `handleGameControl`, by the `id` of the clicked button. -/
inductive ControlId where
  | play1v1Button
  | playVsAIButton
  | backButton1v1
  | backButtonVsAI
  | startGame1v1
  | easyAI
  | mediumAI
  | hardAI
  deriving DecidableEq, Repr

/-- The function `handleGameControl`. -/
def handleGameControl (id : ControlId) (g : Game) : Game :=
  match id with
  | .play1v1Button => showSection .playerInputs1v1 { g with isPlayingWithAI := false }
  | .playVsAIButton => showSection .playerInputsVsAI { g with isPlayingWithAI := true }
  | .backButton1v1 => showSection .mainMenu g
  | .backButtonVsAI => showSection .mainMenu g
  | .startGame1v1 => startGame g
  | .easyAI => startGame { g with AIDifficulty := .easy }
  | .mediumAI => startGame { g with AIDifficulty := .medium }
  | .hardAI => startGame { g with AIDifficulty := .hard }

/-- A sequence of clicks, each paired with the random values available while it is handled. -/
def clicks : List (RandSrc × Fin 9) → Game → Option Game
  | [], g => some g
  | (rnd, i) :: rest, g => (click rnd i g).bind (clicks rest)

/-! ## Specification-side predicates and sample inputs -/

/-- The three cells of the pattern are non-empty and hold the same mark. -/
def sameMark (sq : Board) (p : Pattern) : Prop :=
  sq p.1 ≠ .empty ∧ sq p.2.1 ≠ .empty ∧ sq p.2.2 ≠ .empty ∧
    sq p.1 = sq p.2.1 ∧ sq p.2.1 = sq p.2.2

instance (sq : Board) (p : Pattern) : Decidable (sameMark sq p) := by
  unfold sameMark; infer_instance

/-- The board whose first cells are the listed ones, the remaining cells being empty. -/
def boardOfList (l : List Cell) : Board := fun i => l.getD i.val .empty

/-- A full board on which the top row holds three `x`. -/
def fullWinBoard : Board := boardOfList [.x, .x, .x, .o, .o, .x, .o, .x, .o]

/-- A random source whose every value is `0`. -/
def rndZero : RandSrc := fun _ => ⟨0, 53, by decide, by decide, by decide⟩

/-- A two-human game on an empty board with player 1 to move. -/
def freshGame : Game :=
  { squares := fun _ => .empty
    winnerClass := fun _ => false
    StatusGame := .P1
    nextStarter := .P2
    player1Name := "Ann"
    player2Name := "Bob"
    isPlayingWithAI := false
    AIDifficulty := .easy
    inputPlayer1Name := "Ann"
    inputPlayer2Name := "Bob"
    inputPlayer1NameAI := ""
    shown := .board
    modalOpen := false
    modalText := "" }

/-- The three exits of `handleTurn` that do not call `makeAIMove`: `Resolves h g` relates the
state `h` on which `handleTurn` runs to the state `g` it leaves. -/
inductive Resolves : Game → Game → Prop
  | win (h : Game) (p : Pattern) : checkWinner h.squares = some p → Resolves h (endGame p h)
  | draw (h : Game) : checkWinner h.squares = none → isDraw h.squares = true →
      Resolves h (viewModal "Draw" h)
  | next (h : Game) : checkWinner h.squares = none → isDraw h.squares = false →
      Resolves h (togglePlayer h)

/-- States reached from a successful `startGame` by clicks (with the AI replies they trigger)
and by `resetGame`. -/
inductive Reachable : Game → Prop
  | start (g : Game) : (validateNames g).2 = true → Reachable (startGame g)
  | click (rnd : RandSrc) (i : Fin 9) (g g' : Game) :
      Reachable g → click rnd i g = some g' → Reachable g'
  | reset (restart : Bool) (g : Game) : Reachable g → Reachable (resetGame restart g)

/-- The page before a two-human game is started: both names typed, nothing played. -/
def menuGame : Game :=
  { squares := fun _ => .empty
    winnerClass := fun _ => false
    StatusGame := .unset
    nextStarter := .P1
    player1Name := ""
    player2Name := ""
    isPlayingWithAI := false
    AIDifficulty := .easy
    inputPlayer1Name := "Ann"
    inputPlayer2Name := " Bob "
    inputPlayer1NameAI := ""
    shown := .playerInputs1v1
    modalOpen := false
    modalText := "" }

/-- The game started from `menuGame` after the clicks 0, 3, 1, 4: player 1 is one move
from completing the top row. -/
def beforeWin : Game :=
  togglePlayer (placeMark 4 (togglePlayer (placeMark 1 (togglePlayer (placeMark 3
    (togglePlayer (placeMark 0 (startGame menuGame))))))))

/-- The cells of a pattern, in the order the selectors visit them. -/
def Pattern.cells (p : Pattern) : List (Fin 9) := [p.1, p.2.1, p.2.2]

/-- The pattern holds exactly two cells with `mark` and one empty cell. -/
def twoAndEmpty (mark : Cell) (sq : Board) (p : Pattern) : Prop :=
  (p.cells.map sq).count mark = 2 ∧ (p.cells.map sq).count .empty = 1

instance (mark : Cell) (sq : Board) (p : Pattern) : Decidable (twoAndEmpty mark sq p) := by
  unfold twoAndEmpty; infer_instance

/-- The board `[o, o, _, x, _, _, _, _, _]`. -/
def hardSampleBoard : Board := boardOfList [.o, .o, .empty, .x]

/-- The board `[x, x, _, _, _, _, _, _, _]`. -/
def mediumSampleBoard : Board := boardOfList [.x, .x]

/-- The double printed `0.8333333333333333`: `3752999689475413 * 2 ^ (-52)`, the largest
multiple of `2 ^ (-52)` below 5/6. -/
def rFiveSixths : Rand := ⟨7505999378950826, 53, by decide, by decide, by decide⟩

/-- The board `[x, o, x, _, _, _, _, _, _]`, with six empty cells. -/
def sixEmptyBoard : Board := boardOfList [.x, .o, .x]

/-- The page before a game against the AI is started: the player's name typed, nothing
played. -/
def vsAIMenu : Game :=
  { menuGame with
    isPlayingWithAI := true
    inputPlayer1Name := ""
    inputPlayer2Name := ""
    inputPlayer1NameAI := "Ann"
    shown := .playerInputsVsAI }

/-- The two-human game started from `menuGame` after the clicks 0, 3, 1, 4, 5, 6, 8, 7: `x` on
0, 1, 5, 8 and `o` on 3, 4, 6, 7, no complete line, player 1 to move, cell 2 empty. -/
def beforeDoubleLine : Game :=
  togglePlayer (placeMark 7 (togglePlayer (placeMark 8 (togglePlayer (placeMark 6
    (togglePlayer (placeMark 5 beforeWin)))))))

/-- The state left by the click on cell 2 of `beforeDoubleLine`. -/
def doubleLineGame : Game := endGame (0, 1, 2) (placeMark 2 beforeDoubleLine)

/-- Index of the cell in row `r` and column `c` of the 3×3 grid: `3 * r + c`. -/
def cellAt (r c : Fin 3) : Fin 9 := ⟨3 * r.val + c.val, by omega⟩

/-- The geometric lines of the grid as index triples: the three rows, the three columns,
the main diagonal and the anti-diagonal. -/
def geometricLines : List Pattern :=
  (List.finRange 3).map (fun r => (cellAt r 0, cellAt r 1, cellAt r 2)) ++
  (List.finRange 3).map (fun c => (cellAt 0 c, cellAt 1 c, cellAt 2 c)) ++
  [(cellAt 0 0, cellAt 1 1, cellAt 2 2), (cellAt 0 2, cellAt 1 1, cellAt 2 0)]

/-- Some row, some column, the main diagonal (row = column) or the anti-diagonal
(row + column = 2) holds three identical non-empty marks. -/
def geometricWin (sq : Board) : Prop :=
  ∃ m, m ≠ Cell.empty ∧
    ((∃ r, ∀ c, sq (cellAt r c) = m) ∨ (∃ c, ∀ r, sq (cellAt r c) = m) ∨
      (∀ r c : Fin 3, r = c → sq (cellAt r c) = m) ∨
      (∀ r c : Fin 3, r.val + c.val = 2 → sq (cellAt r c) = m))

/-- The page before a two-human game in which both players typed the name Ann. -/
def sameNameMenu : Game := { menuGame with inputPlayer2Name := "Ann" }

/-- The game started from `sameNameMenu` after the clicks 0, 3, 1, 4, 8: `x` on 0, 1, 8 and
`o` on 3, 4, player 2 to move. -/
def sameNameBeforeWin : Game :=
  togglePlayer (placeMark 8 (togglePlayer (placeMark 4 (togglePlayer (placeMark 1
    (togglePlayer (placeMark 3 (togglePlayer (placeMark 0 (startGame sameNameMenu))))))))))

/-! ## Theorems -/

theorem Cell.truthy_iff (c : Cell) : c.truthy = true ↔ c ≠ .empty := by
  cases c <;> simp [Cell.truthy]

theorem lineComplete_iff (sq : Board) (p : Pattern) :
    lineComplete sq p = true ↔ sameMark sq p := by
  unfold lineComplete sameMark
  cases h1 : sq p.1 <;> cases h2 : sq p.2.1 <;> cases h3 : sq p.2.2 <;> simp [Cell.truthy]

theorem lineComplete_eq_false_iff (sq : Board) (p : Pattern) :
    lineComplete sq p = false ↔ ¬ sameMark sq p := by
  rw [← lineComplete_iff]; simp

theorem find?_eq_some_iff_index {α : Type} (f : α → Bool) (l : List α) (p : α) :
    l.find? f = some p ↔
      ∃ k : Nat, l[k]? = some p ∧ f p = true ∧ ∀ j : Nat, j < k → ∀ q, l[j]? = some q → f q = false := by
  induction l with
  | nil => simp
  | cons a t ih =>
    by_cases ha : f a = true
    · rw [List.find?_cons_of_pos _ ha]
      constructor
      · intro h
        cases h
        exact ⟨0, by simp, ha, fun j hj => absurd hj (Nat.not_lt_zero j)⟩
      · rintro ⟨k, hk, _, hlt⟩
        cases k with
        | zero => simpa using hk
        | succ k =>
          have := hlt 0 (Nat.succ_pos k) a (by simp)
          rw [ha] at this; cases this
    · rw [List.find?_cons_of_neg _ ha, ih]
      constructor
      · rintro ⟨k, hk, hp, hlt⟩
        refine ⟨k + 1, by simpa using hk, hp, ?_⟩
        intro j hj q hq
        cases j with
        | zero =>
          simp at hq; subst hq; simpa using ha
        | succ j => exact hlt j (Nat.lt_of_succ_lt_succ hj) q (by simpa using hq)
      · rintro ⟨k, hk, hp, hlt⟩
        cases k with
        | zero =>
          simp at hk; subst hk; exact absurd hp ha
        | succ k =>
          exact ⟨k, by simpa using hk, hp, fun j hj q hq =>
            hlt (j + 1) (Nat.succ_lt_succ hj) q (by simpa using hq)⟩

/-- Claim C1: for every board, `checkWinner` returns a pattern exactly when some entry of
`winPatterns` has its three cells non-empty and holding the same mark, it returns `null`
exactly when no entry has, and a returned pattern is such an entry. -/
theorem checkWinner_iff_exists_line (sq : Board) :
    ((∃ p, checkWinner sq = some p) ↔ ∃ p, p ∈ winPatterns ∧ sameMark sq p) ∧
    (checkWinner sq = none ↔ ¬ ∃ p, p ∈ winPatterns ∧ sameMark sq p) ∧
    (∀ p, checkWinner sq = some p → p ∈ winPatterns ∧ sameMark sq p) := by
  have h3 : ∀ p, checkWinner sq = some p → p ∈ winPatterns ∧ sameMark sq p := by
    intro p hp
    exact ⟨List.mem_of_find?_eq_some hp, (lineComplete_iff sq p).1 (List.find?_some hp)⟩
  have h2 : checkWinner sq = none ↔ ¬ ∃ p, p ∈ winPatterns ∧ sameMark sq p := by
    unfold checkWinner
    rw [List.find?_eq_none]
    constructor
    · rintro h ⟨p, hp, hs⟩
      exact h p hp ((lineComplete_iff sq p).2 hs)
    · intro h p hp hc
      exact h ⟨p, hp, (lineComplete_iff sq p).1 hc⟩
  refine ⟨⟨?_, ?_⟩, h2, h3⟩
  · rintro ⟨p, hp⟩
    exact ⟨p, h3 p hp⟩
  · intro h
    cases hc : checkWinner sq with
    | none => exact absurd h (h2.1 hc)
    | some p => exact ⟨p, rfl⟩

/-- Claim C2: `winPatterns` is the declared list (rows, columns, diagonals), and `checkWinner`
returns `p` exactly when `p` is the entry at some position `k` whose three cells are
non-empty and identical while no entry at an earlier position is complete. -/
theorem checkWinner_eq_some_iff_first (sq : Board) (p : Pattern) :
    winPatterns =
        [(0, 1, 2), (3, 4, 5), (6, 7, 8), (0, 3, 6), (1, 4, 7), (2, 5, 8), (0, 4, 8), (2, 4, 6)] ∧
    (checkWinner sq = some p ↔
      ∃ k : Nat, winPatterns[k]? = some p ∧ sameMark sq p ∧
        ∀ j : Nat, j < k → ∀ q, winPatterns[j]? = some q → ¬ sameMark sq q) := by
  refine ⟨rfl, ?_⟩
  unfold checkWinner
  rw [find?_eq_some_iff_index]
  simp only [lineComplete_iff, lineComplete_eq_false_iff]

/-- Claim C3, behaviour of the code: the two-human game 5, 3, 7, 4, 0, 6, 1, 8, 2 ends on the
full board `x x x / o o x / o x o`, whose top row is a winning line; on that board `isDraw`
returns true although `checkWinner` returns `[0, 1, 2]`, so `isDraw` is not "every cell
non-empty and no winner". -/
theorem isDraw_true_on_full_winning_board :
    (clicks [(rndZero, 5), (rndZero, 3), (rndZero, 7), (rndZero, 4), (rndZero, 0),
      (rndZero, 6), (rndZero, 1), (rndZero, 8), (rndZero, 2)] (startGame menuGame)).map
        (fun g => List.ofFn g.squares) = some (List.ofFn fullWinBoard) ∧
    (∀ i, fullWinBoard i ≠ .empty) ∧
    checkWinner fullWinBoard = some (0, 1, 2) ∧
    isDraw fullWinBoard = true ∧
    ¬ (isDraw fullWinBoard = true ↔
        ((∀ i, fullWinBoard i ≠ .empty) ∧ checkWinner fullWinBoard = none)) := by
  refine ⟨by decide, by decide, by decide, by decide, by decide⟩

/-- What `isDraw` computes: it returns true exactly when every cell is non-empty; on boards
where `checkWinner` returns `null` that is the same as "every cell non-empty and no winner". -/
theorem isDraw_iff_full (sq : Board) :
    (isDraw sq = true ↔ ∀ i, sq i ≠ .empty) ∧
    ((isDraw sq = true ∧ checkWinner sq = none) ↔
      ((∀ i, sq i ≠ .empty) ∧ checkWinner sq = none)) := by
  have h : isDraw sq = true ↔ ∀ i, sq i ≠ .empty := by
    unfold isDraw
    rw [List.all_eq_true]
    constructor
    · intro h i
      exact (Cell.truthy_iff _).1 (h (sq i) ((List.mem_ofFn sq (sq i)).2 ⟨i, rfl⟩))
    · intro h c hc
      obtain ⟨i, rfl⟩ := (List.mem_ofFn sq c).1 hc
      exact (Cell.truthy_iff _).2 (h i)
  exact ⟨h, by rw [h]⟩

/-- Claim C4: a click on a non-empty cell is rejected, the whole state (board, turn, modal,
winner highlighting) being the same after the click as before it. -/
theorem click_occupied_rejected (rnd : RandSrc) (i : Fin 9) (g : Game)
    (h : g.squares i ≠ .empty) : click rnd i g = some g := by
  unfold click
  simp [(Cell.truthy_iff _).2 h]

/-- Claim C4, witness: clicking the occupied cell 0 of a game in progress. -/
theorem click_occupied_rejected_witness :
    (placeMark 0 freshGame).squares 0 ≠ .empty ∧
      click rndZero 0 (placeMark 0 freshGame) = some (placeMark 0 freshGame) :=
  ⟨by decide, click_occupied_rejected rndZero 0 (placeMark 0 freshGame) (by decide)⟩

theorem handleTurn_win (fuel : Nat) (rnd : RandSrc) (g : Game) (p : Pattern)
    (h : checkWinner g.squares = some p) :
    handleTurn (fuel + 1) rnd g = some (endGame p g) := by
  simp [handleTurn, h]

theorem handleTurn_draw (fuel : Nat) (rnd : RandSrc) (g : Game)
    (h : checkWinner g.squares = none) (hd : isDraw g.squares = true) :
    handleTurn (fuel + 1) rnd g = some (viewModal "Draw" g) := by
  simp [handleTurn, h, hd]

theorem handleTurn_toggle (fuel : Nat) (rnd : RandSrc) (g : Game)
    (h : checkWinner g.squares = none) (hd : isDraw g.squares = false)
    (hai : ¬ (g.isPlayingWithAI = true ∧ g.StatusGame = .P1)) :
    handleTurn (fuel + 1) rnd g = some (togglePlayer g) := by
  simp only [handleTurn, h, hd]
  by_cases hs : g.StatusGame = .P1
  · have : g.isPlayingWithAI = false := by
      cases hb : g.isPlayingWithAI with
      | false => rfl
      | true => exact absurd ⟨hb, hs⟩ hai
    simp [togglePlayer, this]
  · simp [togglePlayer, hs]

theorem handleTurn_ai (fuel : Nat) (rnd : RandSrc) (g : Game)
    (h : checkWinner g.squares = none) (hd : isDraw g.squares = false)
    (hai : g.isPlayingWithAI = true) (hs : g.StatusGame = .P1) :
    handleTurn (fuel + 1) rnd g = makeAIMove fuel rnd (togglePlayer g) := by
  simp [handleTurn, h, hd, togglePlayer, hai, hs]

theorem makeAIMove_some (fuel : Nat) (rnd rnd1 : RandSrc) (g : Game) (m : Fin 9)
    (h : selectMove g.AIDifficulty rnd g.squares = (some m, rnd1)) :
    makeAIMove (fuel + 1) rnd g = handleTurn fuel rnd1 (placeAIMark m g) := by
  simp [makeAIMove, h]

theorem makeAIMove_none (fuel : Nat) (rnd rnd1 : RandSrc) (g : Game)
    (h : selectMove g.AIDifficulty rnd g.squares = (none, rnd1)) :
    makeAIMove (fuel + 1) rnd g = some g := by
  simp [makeAIMove, h]

theorem handleTurn_outcome (fuel : Nat) (rnd : RandSrc) (h : Game) :
    ∃ g, handleTurn (fuel + 3) rnd h = some g ∧
      (Resolves h g ∨
        (checkWinner h.squares = none ∧ isDraw h.squares = false ∧
          h.isPlayingWithAI = true ∧ h.StatusGame = .P1 ∧
          ((∃ r1, selectMove h.AIDifficulty rnd h.squares = (none, r1) ∧ g = togglePlayer h) ∨
            ∃ m r1, selectMove h.AIDifficulty rnd h.squares = (some m, r1) ∧
              Resolves (placeAIMark m (togglePlayer h)) g))) := by
  cases hw : checkWinner h.squares with
  | some p => exact ⟨_, handleTurn_win _ rnd h p hw, Or.inl (Resolves.win h p hw)⟩
  | none =>
    cases hd : isDraw h.squares with
    | true => exact ⟨_, handleTurn_draw _ rnd h hw hd, Or.inl (Resolves.draw h hw hd)⟩
    | false =>
      by_cases hai : h.isPlayingWithAI = true ∧ h.StatusGame = .P1
      · rw [handleTurn_ai _ rnd h hw hd hai.1 hai.2]
        cases hsel : selectMove (togglePlayer h).AIDifficulty rnd (togglePlayer h).squares with
        | mk mv r1 =>
          cases mv with
          | none =>
            exact ⟨_, makeAIMove_none _ rnd r1 _ hsel,
              Or.inr ⟨rfl, rfl, hai.1, hai.2, Or.inl ⟨r1, hsel, rfl⟩⟩⟩
          | some m =>
            rw [makeAIMove_some _ rnd r1 _ m hsel]
            have hst : (placeAIMark m (togglePlayer h)).StatusGame = .P2 := by
              simp [placeAIMark, togglePlayer, hai.2]
            have hno : ¬ ((placeAIMark m (togglePlayer h)).isPlayingWithAI = true ∧
                (placeAIMark m (togglePlayer h)).StatusGame = .P1) := by
              rw [hst]; simp
            cases hw2 : checkWinner (placeAIMark m (togglePlayer h)).squares with
            | some p =>
              exact ⟨_, handleTurn_win _ r1 _ p hw2,
                Or.inr ⟨rfl, rfl, hai.1, hai.2, Or.inr ⟨m, r1, hsel, Resolves.win _ p hw2⟩⟩⟩
            | none =>
              cases hd2 : isDraw (placeAIMark m (togglePlayer h)).squares with
              | true =>
                exact ⟨_, handleTurn_draw _ r1 _ hw2 hd2,
                  Or.inr ⟨rfl, rfl, hai.1, hai.2, Or.inr ⟨m, r1, hsel, Resolves.draw _ hw2 hd2⟩⟩⟩
              | false =>
                exact ⟨_, handleTurn_toggle _ r1 _ hw2 hd2 hno,
                  Or.inr ⟨rfl, rfl, hai.1, hai.2, Or.inr ⟨m, r1, hsel, Resolves.next _ hw2 hd2⟩⟩⟩
      · exact ⟨_, handleTurn_toggle _ rnd h hw hd hai, Or.inl (Resolves.next h hw hd)⟩

theorem click_rejected (rnd : RandSrc) (i : Fin 9) (g : Game)
    (h : g.StatusGame = .Pause ∨ g.squares i ≠ .empty ∨
      (g.isPlayingWithAI = true ∧ g.StatusGame = .P2)) :
    click rnd i g = some g := by
  unfold click
  rcases h with h | h | h
  · simp [h]
  · simp [(Cell.truthy_iff _).2 h]
  · simp [h.1, h.2]

theorem click_accepted (rnd : RandSrc) (i : Fin 9) (g : Game)
    (h1 : g.StatusGame ≠ .Pause) (h2 : g.squares i = .empty)
    (h3 : ¬ (g.isPlayingWithAI = true ∧ g.StatusGame = .P2)) :
    click rnd i g = handleTurn clickFuel rnd (placeMark i g) := by
  unfold click
  have : ¬ (g.isPlayingWithAI = true ∧ g.StatusGame = .P2) := h3
  simp [h1, h2, Cell.truthy]
  intro a b
  exact absurd ⟨a, b⟩ h3

theorem click_cases (rnd : RandSrc) (i : Fin 9) (g : Game) :
    (click rnd i g = some g ∧ (g.StatusGame = .Pause ∨ g.squares i ≠ .empty ∨
      (g.isPlayingWithAI = true ∧ g.StatusGame = .P2))) ∨
    (click rnd i g = handleTurn clickFuel rnd (placeMark i g) ∧ g.StatusGame ≠ .Pause ∧
      g.squares i = .empty ∧ ¬ (g.isPlayingWithAI = true ∧ g.StatusGame = .P2)) := by
  by_cases h1 : g.StatusGame = .Pause
  · exact Or.inl ⟨click_rejected rnd i g (Or.inl h1), Or.inl h1⟩
  · by_cases h2 : g.squares i = .empty
    · by_cases h3 : g.isPlayingWithAI = true ∧ g.StatusGame = .P2
      · exact Or.inl ⟨click_rejected rnd i g (Or.inr (Or.inr h3)), Or.inr (Or.inr h3)⟩
      · exact Or.inr ⟨click_accepted rnd i g h1 h2 h3, h1, h2, h3⟩
    · exact Or.inl ⟨click_rejected rnd i g (Or.inr (Or.inl h2)), Or.inr (Or.inl h2)⟩

theorem click_total (rnd : RandSrc) (i : Fin 9) (g : Game) : ∃ g', click rnd i g = some g' := by
  rcases click_cases rnd i g with h | h
  · exact ⟨g, h.1⟩
  · obtain ⟨g', hg, _⟩ := handleTurn_outcome 0 rnd (placeMark i g)
    exact ⟨g', h.1.trans hg⟩

theorem sameMark_update (sq : Board) (m : Fin 9) (c : Cell) (p : Pattern)
    (hn : ¬ sameMark sq p) (hs : sameMark (Function.update sq m c) p) :
    Function.update sq m c p.1 = c := by
  unfold sameMark at hn hs
  by_cases h1 : p.1 = m
  · rw [h1]; simp
  · by_cases h2 : p.2.1 = m
    · rw [hs.2.2.2.1, h2]; simp
    · by_cases h3 : p.2.2 = m
      · rw [hs.2.2.2.1, hs.2.2.2.2, h3]; simp
      · simp only [Function.update_noteq h1, Function.update_noteq h2,
          Function.update_noteq h3] at hs
        exact absurd hs hn

theorem checkWinner_none_iff (sq : Board) :
    checkWinner sq = none ↔ ∀ p, p ∈ winPatterns → ¬ sameMark sq p := by
  unfold checkWinner
  rw [List.find?_eq_none]
  constructor
  · intro h p hp hs
    exact h p hp ((lineComplete_iff sq p).2 hs)
  · intro h p hp hc
    exact h p hp ((lineComplete_iff sq p).1 hc)

theorem checkWinner_some (sq : Board) (p : Pattern) (h : checkWinner sq = some p) :
    p ∈ winPatterns ∧ sameMark sq p :=
  ⟨List.mem_of_find?_eq_some h, (lineComplete_iff sq p).1 (List.find?_some h)⟩

theorem winner_holds_new_mark (sq : Board) (m : Fin 9) (c : Cell) (p : Pattern)
    (hn : checkWinner sq = none) (hs : checkWinner (Function.update sq m c) = some p) :
    Function.update sq m c p.1 = c := by
  obtain ⟨hp, hsm⟩ := checkWinner_some _ p hs
  exact sameMark_update sq m c p ((checkWinner_none_iff sq).1 hn p hp) hsm

theorem endGame_squares (p : Pattern) (g : Game) : (endGame p g).squares = g.squares := rfl

theorem endGame_status (p : Pattern) (g : Game) : (endGame p g).StatusGame = .Pause := rfl

theorem endGame_winnerClass (p : Pattern) (g : Game) :
    (endGame p g).winnerClass p.1 = true ∧ (endGame p g).winnerClass p.2.1 = true ∧
      (endGame p g).winnerClass p.2.2 = true := by
  simp [endGame, viewModal]

/-- Claim C5: when the board left by an accepted move contains a complete line, `handleTurn`
ends the game with the pattern `checkWinner` returns: the turn becomes `Pause`, the modal
opens on the mover's name followed by " has won", and the three cells of the pattern are
highlighted.  In a two-human game with player 1 to move on an empty board, the clicks
0, 3, 1, 4, 2 end with `[0, 1, 2]` highlighted, player 1's name announced, the turn paused,
and every later click rejected. -/
theorem win_signalled_and_paused :
    (∀ (fuel : Nat) (rnd : RandSrc) (i : Fin 9) (g : Game) (p : Pattern),
      g.StatusGame ≠ .Pause → g.squares i = .empty →
      ¬ (g.isPlayingWithAI = true ∧ g.StatusGame = .P2) →
      checkWinner (placeMark i g).squares = some p →
        handleTurn (fuel + 1) rnd (placeMark i g) = some (endGame p (placeMark i g)) ∧
        click rnd i g = some (endGame p (placeMark i g)) ∧
        (endGame p (placeMark i g)).StatusGame = .Pause ∧
        (endGame p (placeMark i g)).modalOpen = true ∧
        (endGame p (placeMark i g)).modalText =
          (if g.StatusGame = .P1 then g.player1Name else g.player2Name) ++ " has won" ∧
        (endGame p (placeMark i g)).winnerClass p.1 = true ∧
        (endGame p (placeMark i g)).winnerClass p.2.1 = true ∧
        (endGame p (placeMark i g)).winnerClass p.2.2 = true ∧
        (endGame p (placeMark i g)).squares = (placeMark i g).squares) ∧
    (∀ (rnd : RandSrc) (g : Game),
      g.isPlayingWithAI = false → g.StatusGame = .P1 → g.squares = (fun _ => .empty) →
        ∃ g5, clicks [(rnd, 0), (rnd, 3), (rnd, 1), (rnd, 4), (rnd, 2)] g = some g5 ∧
          checkWinner g5.squares = some (0, 1, 2) ∧
          g5.StatusGame = .Pause ∧ g5.modalOpen = true ∧
          g5.modalText = g.player1Name ++ " has won" ∧
          g5.winnerClass 0 = true ∧ g5.winnerClass 1 = true ∧ g5.winnerClass 2 = true ∧
          ∀ (rnd2 : RandSrc) (j : Fin 9), click rnd2 j g5 = some g5) := by
  constructor
  · intro fuel rnd i g p h1 h2 h3 hw
    refine ⟨handleTurn_win fuel rnd _ p hw, ?_, rfl, rfl, rfl, ?_⟩
    · rw [click_accepted rnd i g h1 h2 h3]
      exact handleTurn_win _ rnd _ p hw
    · obtain ⟨a, b, c⟩ := endGame_winnerClass p (placeMark i g)
      exact ⟨a, b, c, rfl⟩
  · intro rnd g hai hs hsq
    obtain ⟨sq, wc, st, ns, n1, n2, ai, d, i1, i2, i3, sh, mo, mt⟩ := g
    simp only at hai hs hsq
    subst hai hs hsq
    refine ⟨endGame (0, 1, 2) (placeMark 2 (togglePlayer (placeMark 4 (togglePlayer
      (placeMark 1 (togglePlayer (placeMark 3 (togglePlayer (placeMark 0 _))))))))),
      rfl, rfl, rfl, rfl, rfl, ?_, ?_, ?_, ?_⟩
    · simp [endGame, viewModal]
    · simp [endGame, viewModal]
    · simp [endGame, viewModal]
    · intro rnd2 j
      exact click_rejected rnd2 j _ (Or.inl rfl)

/-- Claim C5, witness: the accepted move of player 1 on cell 2 that completes the top row,
and the five-click game from `freshGame`. -/
theorem win_signalled_and_paused_witness :
    click rndZero 2 { freshGame with squares := boardOfList [.x, .x, .empty, .o, .o] } =
      some (endGame (0, 1, 2)
        (placeMark 2 { freshGame with squares := boardOfList [.x, .x, .empty, .o, .o] })) ∧
    ∃ g5, clicks [(rndZero, 0), (rndZero, 3), (rndZero, 1), (rndZero, 4), (rndZero, 2)]
        freshGame = some g5 ∧ g5.StatusGame = .Pause ∧ g5.modalText = "Ann has won" := by
  refine ⟨(win_signalled_and_paused.1 0 rndZero 2
      { freshGame with squares := boardOfList [.x, .x, .empty, .o, .o] } (0, 1, 2)
      (by decide) (by decide) (by decide) (by decide)).2.1, ?_⟩
  obtain ⟨g5, h1, _, h3, _, h5, _⟩ := win_signalled_and_paused.2 rndZero freshGame rfl rfl rfl
  exact ⟨g5, h1, h3, h5⟩

theorem clicks_rejected (g : Game) (h : g.StatusGame = .Pause ∨ ∀ i, g.squares i ≠ .empty)
    (evs : List (RandSrc × Fin 9)) : clicks evs g = some g := by
  induction evs with
  | nil => rfl
  | cons e rest ih =>
    obtain ⟨rnd, i⟩ := e
    have hc : click rnd i g = some g := by
      rcases h with h | h
      · exact click_rejected rnd i g (Or.inl h)
      · exact click_rejected rnd i g (Or.inr (Or.inl (h i)))
    simp [clicks, hc, ih]

/-- Claim C6: once the turn is `Pause` (a win was signalled) or every cell is non-empty (a
draw was signalled), any sequence of clicks leaves the whole state unchanged; the menu
buttons other than the start buttons leave board and turn unchanged; `resetGame` and a
successful `startGame` empty the board and set a turn other than `Pause`. -/
theorem terminal_absorbing (g : Game)
    (h : g.StatusGame = .Pause ∨ ∀ i, g.squares i ≠ .empty) :
    (∀ evs : List (RandSrc × Fin 9), clicks evs g = some g) ∧
    (∀ (rnd : RandSrc) (i : Fin 9), click rnd i g = some g) ∧
    (∀ id, id = ControlId.play1v1Button ∨ id = ControlId.playVsAIButton ∨
        id = ControlId.backButton1v1 ∨ id = ControlId.backButtonVsAI →
      (handleGameControl id g).squares = g.squares ∧
        (handleGameControl id g).StatusGame = g.StatusGame) ∧
    (∀ restart, (resetGame restart g).StatusGame ≠ .Pause ∧
      ∀ i, (resetGame restart g).squares i = .empty) ∧
    ((validateNames g).2 = true →
      (startGame g).StatusGame ≠ .Pause ∧ ∀ i, (startGame g).squares i = .empty) := by
  refine ⟨clicks_rejected g h, ?_, ?_, ?_, ?_⟩
  · intro rnd i
    simpa [clicks] using clicks_rejected g h [(rnd, i)]
  · intro id hid
    rcases hid with rfl | rfl | rfl | rfl <;> exact ⟨rfl, rfl⟩
  · intro restart
    cases restart
    · exact ⟨by simp [resetGame], fun _ => rfl⟩
    · refine ⟨?_, fun _ => rfl⟩
      simp only [resetGame, cleanGameBoard]
      cases g.nextStarter <;> simp [Starter.toStatus]
  · intro hv
    have : startGame g =
        { showSection .board (cleanGameBoard
            { (validateNames g).1 with StatusGame := (validateNames g).1.nextStarter.toStatus })
          with nextStarter :=
            if (validateNames g).1.nextStarter = .P1 then .P2 else .P1 } := by
      simp [startGame, hv, showSection, cleanGameBoard]
    rw [this]
    refine ⟨?_, fun _ => rfl⟩
    simp only [showSection, cleanGameBoard]
    cases (validateNames g).1.nextStarter <;> simp [Starter.toStatus]

/-- Claim C6, witness: the paused state `endGame (0, 1, 2) freshGame`; later clicks on cells 5
and 0 change nothing. -/
theorem terminal_absorbing_witness :
    (endGame (0, 1, 2) freshGame).StatusGame = .Pause ∧
      clicks [(rndZero, 5), (rndZero, 0)] (endGame (0, 1, 2) freshGame) =
        some (endGame (0, 1, 2) freshGame) :=
  ⟨rfl, (terminal_absorbing (endGame (0, 1, 2) freshGame) (Or.inl rfl)).1
    [(rndZero, 5), (rndZero, 0)]⟩

theorem checkWinner_empty : checkWinner (fun _ => Cell.empty) = none := by decide

theorem startGame_of_valid (g : Game) (hv : (validateNames g).2 = true) :
    startGame g =
      { showSection .board (cleanGameBoard
          { (validateNames g).1 with StatusGame := (validateNames g).1.nextStarter.toStatus })
        with nextStarter := if (validateNames g).1.nextStarter = .P1 then .P2 else .P1 } := by
  simp [startGame, hv, showSection, cleanGameBoard]

theorem validateNames_fst (g : Game) :
    (validateNames g).1 =
      { g with
        player1Name := trim (if g.isPlayingWithAI then g.inputPlayer1NameAI
          else g.inputPlayer1Name)
        player2Name := if g.isPlayingWithAI then "AI" else trim g.inputPlayer2Name } := by
  unfold validateNames
  dsimp only
  split_ifs <;> rfl

theorem validateNames_player2 (g : Game) :
    (validateNames g).1.isPlayingWithAI = g.isPlayingWithAI ∧
      (g.isPlayingWithAI = true → (validateNames g).1.player2Name = "AI") := by
  rw [validateNames_fst]
  exact ⟨rfl, fun h => by simp [h]⟩

theorem Resolves.frame {h g : Game} (hr : Resolves h g) :
    g.squares = h.squares ∧ g.player1Name = h.player1Name ∧ g.player2Name = h.player2Name ∧
      g.isPlayingWithAI = h.isPlayingWithAI ∧ g.nextStarter = h.nextStarter := by
  cases hr <;> exact ⟨rfl, rfl, rfl, rfl, rfl⟩

theorem Resolves.paused_or_open {h g : Game} (hr : Resolves h g) :
    g.StatusGame = .Pause ∨ checkWinner g.squares = none := by
  cases hr with
  | win p hw => exact Or.inl rfl
  | draw hw hd => exact Or.inr hw
  | next hw hd => exact Or.inr hw

theorem Resolves.of_paused {h g : Game} (hr : Resolves h g) (hs : h.StatusGame ≠ .Pause)
    (hp : g.StatusGame = .Pause) : ∃ p, checkWinner h.squares = some p ∧ g = endGame p h := by
  cases hr with
  | win p hw => exact ⟨p, hw, rfl⟩
  | draw hw hd => exact absurd hp hs
  | next hw hd =>
    exfalso
    simp only [togglePlayer] at hp
    split at hp <;> cases hp

/-- Invariant of the states between two events. -/
theorem Reachable.invariant {g : Game} (hr : Reachable g) :
    (g.StatusGame = .Pause ∨ checkWinner g.squares = none) ∧
      (g.isPlayingWithAI = true → g.player2Name = "AI") := by
  induction hr with
  | start g hv =>
    rw [startGame_of_valid g hv]
    refine ⟨Or.inr checkWinner_empty, ?_⟩
    intro hai
    have := validateNames_player2 g
    simp only [showSection, cleanGameBoard] at hai ⊢
    exact this.2 (this.1 ▸ hai)
  | click rnd i g g' _ hc ih =>
    rcases click_cases rnd i g with ⟨hrej, _⟩ | ⟨hacc, h1, h2, h3⟩
    · rw [hrej] at hc
      cases hc
      exact ih
    · obtain ⟨g2, hg2, hout⟩ := handleTurn_outcome 0 rnd (placeMark i g)
      rw [hacc] at hc
      have : g2 = g' := by
        have := hg2.symm.trans hc
        exact Option.some.inj this
      subst this
      rcases hout with hres | ⟨hw, _, _, _, hsel | ⟨m, r1, _, hres⟩⟩
      · obtain ⟨_, _, f3, f4, _⟩ := hres.frame
        exact ⟨hres.paused_or_open, fun hai => by rw [f3]; exact ih.2 (f4 ▸ hai)⟩
      · obtain ⟨_, _, rfl⟩ := hsel
        exact ⟨Or.inr hw, ih.2⟩
      · obtain ⟨_, _, f3, f4, _⟩ := hres.frame
        exact ⟨hres.paused_or_open, fun hai => by rw [f3]; exact ih.2 (f4 ▸ hai)⟩
  | reset restart g _ ih =>
    cases restart
    · exact ⟨Or.inr checkWinner_empty, ih.2⟩
    · exact ⟨Or.inr checkWinner_empty, ih.2⟩

theorem append_has_won_injective (a b : String) (h : a ++ " has won" = b ++ " has won") :
    a = b := by
  have := congrArg String.data h
  simp only [String.data_append] at this
  exact String.ext (List.append_cancel_right this)

/-- Claim C7, counterexample: both players are named Ann; after the clicks 0, 3, 1, 4, 8 the
click of player 2 on cell 5 completes `[3, 4, 5]` with `o`, and the modal reads
"Ann has won", which is also player 1's name followed by " has won": the modal shows
player 1's name while the line does not hold `x`. -/
theorem same_names_break_name_equivalence :
    Reachable sameNameBeforeWin ∧
    sameNameBeforeWin.StatusGame ≠ .Pause ∧
    click rndZero 5 sameNameBeforeWin =
      some (endGame (3, 4, 5) (placeMark 5 sameNameBeforeWin)) ∧
    (endGame (3, 4, 5) (placeMark 5 sameNameBeforeWin)).StatusGame = .Pause ∧
    checkWinner (endGame (3, 4, 5) (placeMark 5 sameNameBeforeWin)).squares =
      some (3, 4, 5) ∧
    (endGame (3, 4, 5) (placeMark 5 sameNameBeforeWin)).squares 3 = .o ∧
    (endGame (3, 4, 5) (placeMark 5 sameNameBeforeWin)).player1Name = "Ann" ∧
    (endGame (3, 4, 5) (placeMark 5 sameNameBeforeWin)).player2Name = "Ann" ∧
    (endGame (3, 4, 5) (placeMark 5 sameNameBeforeWin)).modalText = "Ann has won" ∧
    ¬ ((endGame (3, 4, 5) (placeMark 5 sameNameBeforeWin)).modalText =
          (endGame (3, 4, 5) (placeMark 5 sameNameBeforeWin)).player1Name ++ " has won" ↔
        (endGame (3, 4, 5) (placeMark 5 sameNameBeforeWin)).squares 3 = .x) := by
  have h0 : Reachable (startGame sameNameMenu) := Reachable.start sameNameMenu (by decide)
  have h1 := Reachable.click rndZero 0 _ (togglePlayer (placeMark 0 (startGame sameNameMenu)))
    h0 rfl
  have h2 := Reachable.click rndZero 3 _ (togglePlayer (placeMark 3 _)) h1 rfl
  have h3 := Reachable.click rndZero 1 _ (togglePlayer (placeMark 1 _)) h2 rfl
  have h4 := Reachable.click rndZero 4 _ (togglePlayer (placeMark 4 _)) h3 rfl
  have h5 : Reachable sameNameBeforeWin :=
    Reachable.click rndZero 8 _ (togglePlayer (placeMark 8 _)) h4 rfl
  exact ⟨h5, by decide, rfl, rfl, by decide, by decide, by decide, by decide, by decide,
    by decide⟩

/-- Claim C7, amended: in a game reached from `startGame` by clicks (with their AI replies)
and resets, whenever a click ends with a win signalled (the turn goes from not paused to
`Pause`), the highlighted pattern is the one `checkWinner` finds on the final board, its
three cells hold one mark, and the modal names the owner of that mark: player 1's name when
the cells hold `x`, player 2's name (which is "AI" in a game against the AI) when they hold
`o`; when the two names differ these are equivalences. -/
theorem winner_named_owns_line (rnd : RandSrc) (i : Fin 9) (g g' : Game)
    (hr : Reachable g) (hc : click rnd i g = some g')
    (hs : g.StatusGame ≠ .Pause) (hp : g'.StatusGame = .Pause) :
    ∃ p, checkWinner g'.squares = some p ∧ sameMark g'.squares p ∧
      g'.modalOpen = true ∧
      g'.winnerClass p.1 = true ∧ g'.winnerClass p.2.1 = true ∧ g'.winnerClass p.2.2 = true ∧
      (g'.squares p.1 = .x ∨ g'.squares p.1 = .o) ∧
      (g'.squares p.1 = .x → g'.modalText = g'.player1Name ++ " has won") ∧
      (g'.squares p.1 = .o → g'.modalText = g'.player2Name ++ " has won") ∧
      (g'.isPlayingWithAI = true → g'.player2Name = "AI") ∧
      (g'.player1Name ≠ g'.player2Name →
        (g'.modalText = g'.player1Name ++ " has won" ↔ g'.squares p.1 = .x) ∧
        (g'.modalText = g'.player2Name ++ " has won" ↔ g'.squares p.1 = .o)) := by
  have hinv' := (Reachable.click rnd i g g' hr hc).invariant
  have hinv := hr.invariant
  -- the owner of the line decides the name; collect the core facts first
  suffices hcore : ∃ p, checkWinner g'.squares = some p ∧ g'.modalOpen = true ∧
      g'.winnerClass p.1 = true ∧ g'.winnerClass p.2.1 = true ∧ g'.winnerClass p.2.2 = true ∧
      ((g'.squares p.1 = .x ∧ g'.modalText = g'.player1Name ++ " has won") ∨
        (g'.squares p.1 = .o ∧ g'.modalText = g'.player2Name ++ " has won")) by
    obtain ⟨p, hw, hm, c1, c2, c3, hown⟩ := hcore
    refine ⟨p, hw, (checkWinner_some _ p hw).2, hm, c1, c2, c3, ?_, ?_, ?_, hinv'.2, ?_⟩
    · rcases hown with h | h
      · exact Or.inl h.1
      · exact Or.inr h.1
    · intro hx
      rcases hown with h | h
      · exact h.2
      · rw [h.1] at hx; cases hx
    · intro ho
      rcases hown with h | h
      · rw [h.1] at ho; cases ho
      · exact h.2
    · intro hne
      rcases hown with h | h
      · refine ⟨⟨fun _ => h.1, fun _ => h.2⟩, ⟨fun ht => ?_, fun ho => ?_⟩⟩
        · exact absurd (append_has_won_injective _ _ (h.2.symm.trans ht)) hne
        · rw [h.1] at ho; cases ho
      · refine ⟨⟨fun ht => ?_, fun hx => ?_⟩, ⟨fun _ => h.1, fun _ => h.2⟩⟩
        · exact absurd (append_has_won_injective _ _ (ht.symm.trans h.2)) hne
        · rw [h.1] at hx; cases hx
  rcases click_cases rnd i g with ⟨hrej, _⟩ | ⟨hacc, _, h2, h3⟩
  · rw [hrej] at hc
    cases hc
    exact absurd hp hs
  · obtain ⟨g2, hg2, hout⟩ := handleTurn_outcome 0 rnd (placeMark i g)
    rw [hacc] at hc
    have : g2 = g' := Option.some.inj (hg2.symm.trans hc)
    subst this
    have hopen : checkWinner g.squares = none := by
      rcases hinv.1 with h | h
      · exact absurd h hs
      · exact h
    rcases hout with hres | ⟨hw, _, hai, hst, hsel | ⟨m, r1, _, hres⟩⟩
    · -- the click itself completes the line
      obtain ⟨p, hw, rfl⟩ := hres.of_paused hs hp
      obtain ⟨c1, c2, c3⟩ := endGame_winnerClass p (placeMark i g)
      refine ⟨p, hw, rfl, c1, c2, c3, ?_⟩
      have hmark := winner_holds_new_mark g.squares i _ p hopen hw
      by_cases hP1 : g.StatusGame = .P1
      · left
        refine ⟨?_, ?_⟩
        · simpa [endGame, viewModal, placeMark, hP1] using hmark
        · simp [endGame, viewModal, placeMark, hP1]
      · right
        refine ⟨?_, ?_⟩
        · simpa [endGame, viewModal, placeMark, hP1] using hmark
        · simp [endGame, viewModal, placeMark, hP1]
    · obtain ⟨_, _, rfl⟩ := hsel
      exfalso
      simp only [togglePlayer] at hp
      split at hp <;> cases hp
    · -- the AI reply completes the line
      have hs2 : (placeAIMark m (togglePlayer (placeMark i g))).StatusGame = .P2 := by
        have : (placeMark i g).StatusGame = .P1 := hst
        simp [placeAIMark, togglePlayer, this]
      obtain ⟨p, hw2, rfl⟩ := hres.of_paused (by rw [hs2]; simp) hp
      obtain ⟨c1, c2, c3⟩ := endGame_winnerClass p (placeAIMark m (togglePlayer (placeMark i g)))
      refine ⟨p, hw2, rfl, c1, c2, c3, Or.inr ⟨?_, ?_⟩⟩
      · exact winner_holds_new_mark (placeMark i g).squares m .o p hw hw2
      · simp [endGame, viewModal, hs2]

/-- Claim C7, witness: the game started from `menuGame`, clicks 0, 3, 1, 4, then the
winning click on cell 2. -/
theorem winner_named_owns_line_witness :
    Reachable beforeWin ∧
    click rndZero 2 beforeWin = some (endGame (0, 1, 2) (placeMark 2 beforeWin)) ∧
    beforeWin.StatusGame ≠ .Pause ∧
    ∃ p, checkWinner (endGame (0, 1, 2) (placeMark 2 beforeWin)).squares = some p ∧
      sameMark (endGame (0, 1, 2) (placeMark 2 beforeWin)).squares p := by
  have h0 : Reachable (startGame menuGame) := Reachable.start menuGame (by decide)
  have h1 := Reachable.click rndZero 0 _ (togglePlayer (placeMark 0 (startGame menuGame))) h0 rfl
  have h2 := Reachable.click rndZero 3 _ (togglePlayer (placeMark 3 _)) h1 rfl
  have h3 := Reachable.click rndZero 1 _ (togglePlayer (placeMark 1 _)) h2 rfl
  have h4 : Reachable beforeWin := Reachable.click rndZero 4 _ (togglePlayer (placeMark 4 _)) h3 rfl
  obtain ⟨p, hp, hs, _⟩ := winner_named_owns_line rndZero 2 beforeWin
    (endGame (0, 1, 2) (placeMark 2 beforeWin)) h4 rfl (by decide) rfl
  exact ⟨h4, rfl, by decide, p, hp, hs⟩

theorem click_nextStarter (rnd : RandSrc) (i : Fin 9) (g g' : Game)
    (hc : click rnd i g = some g') : g'.nextStarter = g.nextStarter := by
  rcases click_cases rnd i g with ⟨hrej, _⟩ | ⟨hacc, _, _, _⟩
  · rw [hrej] at hc
    cases hc
    rfl
  · obtain ⟨g2, hg2, hout⟩ := handleTurn_outcome 0 rnd (placeMark i g)
    rw [hacc] at hc
    have : g2 = g' := Option.some.inj (hg2.symm.trans hc)
    subst this
    rcases hout with hres | ⟨_, _, _, _, hsel | ⟨m, r1, _, hres⟩⟩
    · exact hres.frame.2.2.2.2
    · obtain ⟨_, _, rfl⟩ := hsel
      rfl
    · exact hres.frame.2.2.2.2

theorem clicks_nextStarter (evs : List (RandSrc × Fin 9)) (g g' : Game)
    (hc : clicks evs g = some g') : g'.nextStarter = g.nextStarter := by
  induction evs generalizing g with
  | nil =>
    cases hc
    rfl
  | cons e rest ih =>
    obtain ⟨rnd, i⟩ := e
    obtain ⟨g1, hg1⟩ := click_total rnd i g
    simp only [clicks, hg1, Option.some_bind] at hc
    rw [ih g1 hc, click_nextStarter rnd i g g1 hg1]

/-- Claim C8, behaviour of the code: `resetGame(true)` copies `nextStarter` into the turn
without flipping it, so two games in a row begun by `resetGame(true)` have the same
starter, whatever is played in between; from `menuGame` the starters of the games begun
by `startGame`, `resetGame(true)`, `resetGame(true)` are P1, P2, P2. -/
theorem restart_repeats_starter :
    (∀ (g g' : Game) (evs : List (RandSrc × Fin 9)),
      clicks evs (resetGame true g) = some g' →
        (resetGame true g').StatusGame = (resetGame true g).StatusGame) ∧
    (startGame menuGame).StatusGame = .P1 ∧
    (resetGame true (startGame menuGame)).StatusGame = .P2 ∧
    (resetGame true (resetGame true (startGame menuGame))).StatusGame = .P2 := by
  refine ⟨?_, by decide, by decide, by decide⟩
  intro g g' evs hc
  have := clicks_nextStarter evs _ g' hc
  simp only [resetGame, cleanGameBoard] at this ⊢
  simp [this]

theorem isDraw_eq_true_iff (sq : Board) : isDraw sq = true ↔ ∀ i, sq i ≠ .empty := by
  unfold isDraw
  rw [List.all_eq_true]
  constructor
  · intro h i
    exact (Cell.truthy_iff _).1 (h (sq i) ((List.mem_ofFn sq (sq i)).2 ⟨i, rfl⟩))
  · intro h c hc
    obtain ⟨i, rfl⟩ := (List.mem_ofFn sq c).1 hc
    exact (Cell.truthy_iff _).2 (h i)

theorem click_two_human (rnd : RandSrc) (i : Fin 9) (g : Game)
    (hai : g.isPlayingWithAI = false) (h1 : g.StatusGame ≠ .Pause)
    (h2 : g.squares i = .empty) :
    ∃ g', click rnd i g = some g' ∧ Resolves (placeMark i g) g' := by
  have h3 : ¬ (g.isPlayingWithAI = true ∧ g.StatusGame = .P2) := by simp [hai]
  rw [click_accepted rnd i g h1 h2 h3]
  obtain ⟨g', hg', hout⟩ := handleTurn_outcome 0 rnd (placeMark i g)
  refine ⟨g', hg', ?_⟩
  rcases hout with hres | ⟨_, _, hai', _⟩
  · exact hres
  · have : (placeMark i g).isPlayingWithAI = g.isPlayingWithAI := rfl
    rw [this, hai] at hai'
    cases hai'

/-- Claim C9: in a two-human game, an accepted move that neither completes a line nor fills
the board hands the turn to the other player (P1 to P2, P2 to P1) and leaves the mover's
mark on the clicked cell; any two consecutive accepted moves place different marks;
`togglePlayer` maps P1 to P2 and P2 to P1. -/
theorem turn_alternates_two_human :
    (∀ (rnd : RandSrc) (i : Fin 9) (g : Game),
      g.isPlayingWithAI = false → (g.StatusGame = .P1 ∨ g.StatusGame = .P2) →
      g.squares i = .empty →
      checkWinner (placeMark i g).squares = none → isDraw (placeMark i g).squares = false →
        click rnd i g = some (togglePlayer (placeMark i g)) ∧
        (g.StatusGame = .P1 →
          (togglePlayer (placeMark i g)).StatusGame = .P2 ∧
            (togglePlayer (placeMark i g)).squares i = .x) ∧
        (g.StatusGame = .P2 →
          (togglePlayer (placeMark i g)).StatusGame = .P1 ∧
            (togglePlayer (placeMark i g)).squares i = .o)) ∧
    (∀ (rnd rnd2 : RandSrc) (i j : Fin 9) (g g1 g2 : Game),
      g.isPlayingWithAI = false →
      g.StatusGame ≠ .Pause → g.squares i = .empty → click rnd i g = some g1 →
      g1.StatusGame ≠ .Pause → g1.squares j = .empty → click rnd2 j g1 = some g2 →
        g1.squares i ≠ .empty ∧ g2.squares j ≠ .empty ∧ g2.squares i = g1.squares i ∧
          g2.squares j ≠ g2.squares i) ∧
    (∀ g : Game, (g.StatusGame = .P1 → (togglePlayer g).StatusGame = .P2) ∧
      (g.StatusGame = .P2 → (togglePlayer g).StatusGame = .P1)) := by
  refine ⟨?_, ?_, ?_⟩
  · intro rnd i g hai hst h2 hw hd
    have h1 : g.StatusGame ≠ .Pause := by
      rcases hst with h | h <;> rw [h] <;> simp
    have h3 : ¬ (g.isPlayingWithAI = true ∧ g.StatusGame = .P2) := by simp [hai]
    have h4 : ¬ ((placeMark i g).isPlayingWithAI = true ∧ (placeMark i g).StatusGame = .P1) := by
      have : (placeMark i g).isPlayingWithAI = false := hai
      simp [this]
    refine ⟨?_, ?_, ?_⟩
    · rw [click_accepted rnd i g h1 h2 h3]
      exact handleTurn_toggle _ rnd _ hw hd h4
    · intro h
      simp [togglePlayer, placeMark, h]
    · intro h
      simp [togglePlayer, placeMark, h]
  · intro rnd rnd2 i j g g1 g2 hai h1 h2 hc1 h1' h2' hc2
    obtain ⟨g1', e1, r1⟩ := click_two_human rnd i g hai h1 h2
    have : g1' = g1 := Option.some.inj (e1.symm.trans hc1)
    subst this
    have hai1 : g1'.isPlayingWithAI = false := by
      rw [r1.frame.2.2.2.1]; exact hai
    obtain ⟨g2', e2, r2⟩ := click_two_human rnd2 j g1' hai1 h1' h2'
    have : g2' = g2 := Option.some.inj (e2.symm.trans hc2)
    subst this
    have hsq1 : g1'.squares = (placeMark i g).squares := r1.frame.1
    have hsq2 : g2'.squares = (placeMark j g1').squares := r2.frame.1
    have hij : i ≠ j := by
      intro h
      subst h
      rw [hsq1] at h2'
      simp only [placeMark, Function.update_same] at h2'
      split at h2' <;> cases h2'
    -- the first move was not terminal, so the turn was toggled
    have hst1 : g1'.StatusGame = if g.StatusGame = .P1 then .P2 else .P1 := by
      cases r1 with
      | win p hw => exact absurd rfl h1'
      | draw hw hd =>
        exact absurd h2' ((isDraw_eq_true_iff _).1 hd j)
      | next hw hd => rfl
    have v1 : g1'.squares i = if g.StatusGame = .P1 then .x else .o := by
      rw [hsq1]; simp [placeMark]
    have v2 : g2'.squares j = if g1'.StatusGame = .P1 then .x else .o := by
      rw [hsq2]; simp [placeMark]
    have v3 : g2'.squares i = g1'.squares i := by
      rw [hsq2]; simp [placeMark, Function.update_noteq hij]
    refine ⟨?_, ?_, v3, ?_⟩
    · rw [v1]; split <;> simp
    · rw [v2]; split <;> simp
    · rw [v3, v1, v2, hst1]
      by_cases hP : g.StatusGame = .P1 <;> simp [hP]
  · intro g
    exact ⟨fun h => by simp [togglePlayer, h], fun h => by simp [togglePlayer, h]⟩

/-- Claim C9, witness: the first two clicks of a two-human game place `x` then `o`. -/
theorem turn_alternates_two_human_witness :
    click rndZero 0 freshGame = some (togglePlayer (placeMark 0 freshGame)) ∧
    (togglePlayer (placeMark 0 freshGame)).StatusGame = .P2 ∧
    (togglePlayer (placeMark 3 (togglePlayer (placeMark 0 freshGame)))).squares 3 ≠
      (togglePlayer (placeMark 3 (togglePlayer (placeMark 0 freshGame)))).squares 0 := by
  obtain ⟨hA, hB, _⟩ := turn_alternates_two_human
  obtain ⟨a1, a2, _⟩ := hA rndZero 0 freshGame rfl (Or.inl rfl) rfl (by decide) (by decide)
  exact ⟨a1, (a2 rfl).1,
    (hB rndZero rndZero 0 3 freshGame _ _ rfl (by decide) rfl a1 (by decide) rfl rfl).2.2.2⟩

theorem scanPattern_spec (mark : Cell) (hm : mark ≠ .empty) (sq : Board) (p : Pattern) :
    (twoAndEmpty mark sq p ↔
      (scanPattern mark sq p).1 = 2 ∧ (scanPattern mark sq p).2 ≠ none) ∧
    (twoAndEmpty mark sq p → ∀ e, e ∈ p.cells → sq e = .empty →
      (scanPattern mark sq p).2 = some e) := by
  obtain ⟨a, b, c⟩ := p
  unfold twoAndEmpty scanPattern Pattern.cells
  simp only [List.foldl, List.map, List.mem_cons, List.mem_singleton, List.not_mem_nil, or_false]
  cases mark with
  | empty => exact absurd rfl hm
  | x =>
    cases h1 : sq a <;> cases h2 : sq b <;> cases h3 : sq c <;>
      simp [Cell.truthy, h1, h2, h3]
  | o =>
    cases h1 : sq a <;> cases h2 : sq b <;> cases h3 : sq c <;>
      simp [Cell.truthy, h1, h2, h3]

theorem findTwoAndEmpty_cons (mark : Cell) (hm : mark ≠ .empty) (sq : Board) (p : Pattern)
    (rest : List Pattern) :
    findTwoAndEmpty mark sq (p :: rest) =
      if twoAndEmpty mark sq p then (scanPattern mark sq p).2
      else findTwoAndEmpty mark sq rest := by
  have hspec := (scanPattern_spec mark hm sq p).1
  rw [findTwoAndEmpty]
  rcases hscan : scanPattern mark sq p with ⟨count, _ | emptyIndex⟩
  · have : ¬ twoAndEmpty mark sq p := by
      rw [hspec, hscan]; simp
    simp [this]
  · by_cases hc : count = 2
    · have : twoAndEmpty mark sq p := by
        rw [hspec, hscan]; simp [hc]
      simp [this, hc]
    · have : ¬ twoAndEmpty mark sq p := by
        rw [hspec, hscan]; simp [hc]
      simp [this, hc]

theorem findTwoAndEmpty_first (mark : Cell) (hm : mark ≠ .empty) (sq : Board)
    (l : List Pattern) (k : Nat) (p : Pattern) (e : Fin 9)
    (hk : l[k]? = some p) (hp : twoAndEmpty mark sq p)
    (hfirst : ∀ j : Nat, j < k → ∀ q, l[j]? = some q → ¬ twoAndEmpty mark sq q)
    (he : e ∈ p.cells) (hemp : sq e = .empty) :
    findTwoAndEmpty mark sq l = some e := by
  induction l generalizing k with
  | nil => simp at hk
  | cons a t ih =>
    rw [findTwoAndEmpty_cons mark hm]
    cases k with
    | zero =>
      simp at hk
      subst hk
      rw [if_pos hp]
      exact (scanPattern_spec mark hm sq a).2 hp e he hemp
    | succ k =>
      have ha : ¬ twoAndEmpty mark sq a := hfirst 0 (Nat.succ_pos k) a (by simp)
      rw [if_neg ha]
      exact ih k (by simpa using hk)
        (fun j hj q hq => hfirst (j + 1) (Nat.succ_lt_succ hj) q (by simpa using hq))

/-- Claim C10: on every board where some entry of `winPatterns` holds exactly two `o` and one
empty cell, the hard selector returns the empty cell of the first such entry, without
reading the random source and whatever `x` threats exist; placing `o` there completes that
entry.  On `[o, o, _, x, _, _, _, _, _]` it returns cell 2, and with `o` on cell 2
`checkWinner` returns `[0, 1, 2]`. -/
theorem hard_takes_the_win :
    (∀ (rnd : RandSrc) (sq : Board) (k : Nat) (p : Pattern) (e : Fin 9),
      winPatterns[k]? = some p → twoAndEmpty .o sq p →
      (∀ j : Nat, j < k → ∀ q, winPatterns[j]? = some q → ¬ twoAndEmpty .o sq q) →
      e ∈ p.cells → sq e = .empty →
        getWinningMove sq = some e ∧ selectMove .hard rnd sq = (some e, rnd) ∧
          sameMark (Function.update sq e .o) p ∧
          (checkWinner (Function.update sq e .o)).isSome = true) ∧
    (∀ rnd : RandSrc, selectMove .hard rnd hardSampleBoard = (some 2, rnd)) ∧
    checkWinner (Function.update hardSampleBoard 2 .o) = some (0, 1, 2) := by
  refine ⟨?_, ?_, by decide⟩
  · intro rnd sq k p e hk hp hfirst he hemp
    have hw : getWinningMove sq = some e :=
      findTwoAndEmpty_first .o (by simp) sq winPatterns k p e hk hp hfirst he hemp
    have hsm : sameMark (Function.update sq e .o) p := by
      obtain ⟨a, b, c⟩ := p
      unfold twoAndEmpty Pattern.cells at hp
      unfold Pattern.cells at he
      unfold sameMark
      simp only [List.map, List.mem_cons, List.mem_singleton, List.not_mem_nil, or_false] at hp he
      simp only [Function.update_apply]
      cases h1 : sq a <;> cases h2 : sq b <;> cases h3 : sq c <;>
        rcases he with h | h | h <;> simp_all
    refine ⟨hw, ?_, hsm, ?_⟩
    · simp [selectMove, orElseRnd, hw]
    · have hmem : p ∈ winPatterns := List.getElem?_mem hk
      unfold checkWinner
      rw [List.find?_isSome]
      exact ⟨p, hmem, (lineComplete_iff _ p).2 hsm⟩
  · intro rnd
    rfl

/-- Claim C10, witness: a board with an `o` pair on the top row and an `x` pair on the
middle row; the hard selector completes the top row instead of blocking. -/
theorem hard_takes_the_win_witness :
    selectMove .hard rndZero (boardOfList [.o, .o, .empty, .x, .x]) = (some 2, rndZero) :=
  (hard_takes_the_win.1 rndZero (boardOfList [.o, .o, .empty, .x, .x]) 0 (0, 1, 2) 2 rfl
    (by decide) (fun j hj => absurd hj (Nat.not_lt_zero j)) (by decide) rfl).2.1

theorem excessBits_le (fuel x : Nat) : excessBits fuel x ≤ fuel := by
  induction fuel generalizing x with
  | zero => simp [excessBits]
  | succ f ih =>
    rw [excessBits]
    split
    · exact Nat.zero_le _
    · exact Nat.succ_le_succ (ih _)

theorem excessBits_lower (fuel x : Nat) :
    excessBits fuel x = 0 ∨ 2 ^ (excessBits fuel x + 52) ≤ x := by
  induction fuel generalizing x with
  | zero => simp [excessBits]
  | succ f ih =>
    rw [excessBits]
    split
    · exact Or.inl rfl
    · rename_i hx
      right
      rcases ih (x / 2) with h0 | h
      · rw [h0]
        exact Nat.le_of_not_lt hx
      · have h2 : 2 ^ (excessBits f (x / 2) + 1 + 52) = 2 * 2 ^ (excessBits f (x / 2) + 52) := by
          rw [show excessBits f (x / 2) + 1 + 52 = (excessBits f (x / 2) + 52) + 1 by omega,
            Nat.pow_succ, Nat.mul_comm]
        rw [h2]
        omega

theorem excessBits_upper (fuel x : Nat) (h : x < 2 ^ (53 + fuel)) :
    x < 2 ^ (53 + excessBits fuel x) := by
  induction fuel generalizing x with
  | zero => simpa [excessBits] using h
  | succ f ih =>
    rw [excessBits]
    split
    · rename_i hx
      simpa using hx
    · have hhalf : x / 2 < 2 ^ (53 + f) := by
        have : 2 ^ (53 + (f + 1)) = 2 * 2 ^ (53 + f) := by
          rw [show 53 + (f + 1) = (53 + f) + 1 by omega, Nat.pow_succ, Nat.mul_comm]
        rw [this] at h
        omega
      have := ih (x / 2) hhalf
      have h2 : 2 ^ (53 + (excessBits f (x / 2) + 1)) = 2 * 2 ^ (53 + excessBits f (x / 2)) := by
        rw [show 53 + (excessBits f (x / 2) + 1) = (53 + excessBits f (x / 2)) + 1 by omega,
          Nat.pow_succ, Nat.mul_comm]
      rw [h2]
      omega

theorem floorMul_lt (r : Rand) (n : Nat) (hn : 0 < n) : floorMul r n < n := by
  unfold floorMul
  dsimp only
  have hm := r.mant_lt
  have hE : 2 ^ 53 ≤ 2 ^ r.exp := Nat.pow_le_pow_right (by decide) r.exp_ge
  apply Nat.div_lt_of_lt_mul
  -- it suffices to stay below `2 ^ 53 * n`
  refine Nat.lt_of_lt_of_le ?_ (Nat.mul_le_mul_right n hE)
  generalize hX : r.mant * n = X
  have hXn : X + n ≤ 2 ^ 53 * n := by
    have : r.mant + 1 ≤ 2 ^ 53 := hm
    calc X + n = (r.mant + 1) * n := by rw [← hX]; ring
      _ ≤ 2 ^ 53 * n := Nat.mul_le_mul_right n this
  have hlow := excessBits_lower 53 X
  generalize excessBits 53 X = d at hlow
  have hdiv := Nat.div_add_mod X (2 ^ d)
  have hrest : X % 2 ^ d < 2 ^ d := Nat.mod_lt _ (Nat.pow_pos (by decide))
  cases d with
  | zero =>
    simp only [Nat.pow_zero, Nat.mod_one, Nat.div_one, Nat.mul_one, Nat.mul_zero]
    rw [if_neg (by omega)]
    omega
  | succ k =>
    -- at least one bit is dropped: `2 ^ (k + 53) ≤ X`, hence `2 ^ k < n`
    have hle : 2 ^ (k + 53) ≤ X := by
      rcases hlow with h | h
      · omega
      · simpa [Nat.add_assoc] using h
    have hk : 2 ^ k < n := by
      have h1 : 2 ^ k * 2 ^ 53 ≤ X := by rwa [← Nat.pow_add]
      have h2 : 2 ^ k * 2 ^ 53 < n * 2 ^ 53 := by omega
      exact Nat.lt_of_mul_lt_mul_right h2
    have hD : 2 ^ (k + 1) = 2 * 2 ^ k := by rw [Nat.pow_succ]; ring
    rw [hD] at hdiv hrest ⊢
    generalize 2 ^ k = H at *
    generalize hq : X / (2 * H) = q at *
    generalize X % (2 * H) = rest at *
    have hA : (q + 1) * (2 * H) = 2 * H * q + 2 * H := by ring
    have hB : q * (2 * H) = 2 * H * q := by ring
    split_ifs with hc
    · rw [hA]
      rcases hc with hc | hc <;> omega
    · rw [hB]; omega

theorem floorMul_near_exact (r : Rand) (n : Nat) :
    r.mant * n / 2 ^ r.exp ≤ floorMul r n ∧ floorMul r n ≤ r.mant * n / 2 ^ r.exp + 1 := by
  unfold floorMul
  dsimp only
  have he := r.exp_ge
  generalize r.mant * n = X
  have hd : excessBits 53 X ≤ r.exp := Nat.le_trans (excessBits_le 53 X) he
  generalize excessBits 53 X = d at hd
  obtain ⟨c, hc⟩ : ∃ c, r.exp = d + c := ⟨r.exp - d, by omega⟩
  have hG : 0 < 2 ^ c := Nat.pow_pos (by decide)
  have hD : 0 < 2 ^ d := Nat.pow_pos (by decide)
  have hsplit : (2 : Nat) ^ r.exp = 2 ^ c * 2 ^ d := by rw [hc, Nat.pow_add, Nat.mul_comm]
  have hexact : X / 2 ^ r.exp = X / 2 ^ d / 2 ^ c := by
    rw [hsplit, Nat.div_div_eq_div_mul, Nat.mul_comm]
  have hround : ∀ R : Nat, R * 2 ^ d / 2 ^ r.exp = R / 2 ^ c := by
    intro R
    rw [hsplit, Nat.mul_div_mul_right _ _ hD]
  rw [hround, hexact]
  generalize X / 2 ^ d = q
  have hup : (q + 1) / 2 ^ c ≤ q / 2 ^ c + 1 := by
    calc (q + 1) / 2 ^ c ≤ (q + 2 ^ c) / 2 ^ c :=
          Nat.div_le_div_right (Nat.add_le_add_left hG q)
      _ = q / 2 ^ c + 1 := Nat.add_div_right q hG
  split_ifs
  · exact ⟨Nat.div_le_div_right (Nat.le_succ q), hup⟩
  · exact ⟨Nat.le_refl _, Nat.le_succ _⟩

theorem mem_availableSquares (sq : Board) (i : Fin 9) :
    i ∈ availableSquares sq ↔ sq i = .empty := by
  unfold availableSquares
  rw [List.mem_filter]
  cases h : sq i <;> simp [List.mem_finRange, Cell.truthy]

theorem availableSquares_pairwise (sq : Board) : (availableSquares sq).Pairwise (· < ·) :=
  List.Pairwise.filter _ (List.pairwise_lt_finRange 9)

theorem availableSquares_length_eq_zero (sq : Board) :
    (availableSquares sq).length = 0 ↔ ∀ i, sq i ≠ .empty := by
  rw [List.length_eq_zero, List.eq_nil_iff_forall_not_mem]
  constructor
  · intro h i hi
    exact h i ((mem_availableSquares sq i).2 hi)
  · intro h i hi
    exact h i ((mem_availableSquares sq i).1 hi)

theorem getRandomMove_none_iff (rnd : RandSrc) (sq : Board) :
    (getRandomMove rnd sq).1 = none ↔ ∀ i, sq i ≠ .empty := by
  rw [← availableSquares_length_eq_zero]
  unfold getRandomMove
  dsimp only
  by_cases h : (availableSquares sq).length = 0
  · simp [h]
  · have hlt := floorMul_lt (rnd 0) _ (Nat.pos_of_ne_zero h)
    simp [h, hlt]

theorem getRandomMove_of_empty (rnd : RandSrc) (sq : Board) (h : ∃ i, sq i = .empty) :
    ∃ m, getRandomMove rnd sq = (some m, rnd.next) ∧ sq m = .empty ∧
      (availableSquares sq)[floorMul (rnd 0) (availableSquares sq).length]? = some m := by
  have hne : (availableSquares sq).length ≠ 0 := by
    intro h0
    obtain ⟨i, hi⟩ := h
    exact (availableSquares_length_eq_zero sq).1 h0 i hi
  have hlt := floorMul_lt (rnd 0) _ (Nat.pos_of_ne_zero hne)
  refine ⟨(availableSquares sq).get ⟨_, hlt⟩, ?_, ?_, ?_⟩
  · unfold getRandomMove
    dsimp only
    rw [if_neg hne, List.getElem?_eq_getElem hlt]
    rfl
  · exact (mem_availableSquares sq _).1 (List.get_mem _ _ _)
  · rw [List.getElem?_eq_getElem hlt]
    rfl

theorem getRandomMove_some_empty (rnd : RandSrc) (sq : Board) (m : Fin 9)
    (h : (getRandomMove rnd sq).1 = some m) : sq m = .empty := by
  by_cases he : ∃ i, sq i = .empty
  · obtain ⟨m', h1, h2, _⟩ := getRandomMove_of_empty rnd sq he
    rw [h1] at h
    cases h
    exact h2
  · have : (getRandomMove rnd sq).1 = none :=
      (getRandomMove_none_iff rnd sq).2 (fun i hi => he ⟨i, hi⟩)
    rw [this] at h
    cases h

theorem scanPattern_some_empty (mark : Cell) (sq : Board) (p : Pattern) (e : Fin 9)
    (h : (scanPattern mark sq p).2 = some e) : sq e = .empty := by
  obtain ⟨a, b, c⟩ := p
  unfold scanPattern at h
  simp only [List.foldl] at h
  have key : ∀ i, (sq i).truthy = false → sq i = .empty := by
    intro i hi
    cases hs : sq i <;> simp [hs, Cell.truthy] at hi ⊢
  by_cases ha : sq a = mark <;> by_cases hb : sq b = mark <;> by_cases hc : sq c = mark <;>
    by_cases ta : (sq a).truthy = true <;> by_cases tb : (sq b).truthy = true <;>
    by_cases tc : (sq c).truthy = true <;>
    simp [ha, hb, hc, ta, tb, tc] at h <;>
    first
      | (subst h; exact key _ (by simpa using ta))
      | (subst h; exact key _ (by simpa using tb))
      | (subst h; exact key _ (by simpa using tc))

theorem findTwoAndEmpty_some_empty (mark : Cell) (sq : Board) (l : List Pattern) (e : Fin 9)
    (h : findTwoAndEmpty mark sq l = some e) : sq e = .empty := by
  induction l with
  | nil => simp [findTwoAndEmpty] at h
  | cons p rest ih =>
    rw [findTwoAndEmpty] at h
    rcases hscan : scanPattern mark sq p with ⟨count, _ | emptyIndex⟩
    · rw [hscan] at h
      exact ih h
    · rw [hscan] at h
      dsimp only at h
      by_cases hc : count = 2
      · rw [if_pos hc] at h
        cases h
        exact scanPattern_some_empty mark sq p e (by rw [hscan])
      · rw [if_neg hc] at h
        exact ih h

theorem findTwoAndEmpty_eq_none (mark : Cell) (hm : mark ≠ .empty) (sq : Board)
    (l : List Pattern) :
    findTwoAndEmpty mark sq l = none ↔ ∀ p, p ∈ l → ¬ twoAndEmpty mark sq p := by
  induction l with
  | nil => simp [findTwoAndEmpty]
  | cons a t ih =>
    rw [findTwoAndEmpty_cons mark hm]
    by_cases ha : twoAndEmpty mark sq a
    · rw [if_pos ha]
      have hsome := ((scanPattern_spec mark hm sq a).1.1 ha).2
      constructor
      · intro h
        exact absurd h hsome
      · intro h
        exact absurd ha (h a (List.mem_cons_self a t))
    · rw [if_neg ha, ih]
      constructor
      · intro h p hp
        rcases List.mem_cons.1 hp with rfl | hp
        · exact ha
        · exact h p hp
      · intro h p hp
        exact h p (List.mem_cons_of_mem a hp)

theorem selectMove_some_empty (d : Difficulty) (rnd : RandSrc) (sq : Board) (m : Fin 9)
    (h : (selectMove d rnd sq).1 = some m) : sq m = .empty := by
  cases d with
  | easy => exact getRandomMove_some_empty rnd sq m h
  | medium =>
    simp only [selectMove, orElseRnd] at h
    cases hb : getBlockingMove sq with
    | some b =>
      rw [hb] at h
      cases h
      exact findTwoAndEmpty_some_empty .x sq winPatterns m hb
    | none =>
      rw [hb] at h
      exact getRandomMove_some_empty rnd sq m h
  | hard =>
    simp only [selectMove, orElseRnd] at h
    cases hw : getWinningMove sq with
    | some w =>
      rw [hw] at h
      cases h
      exact findTwoAndEmpty_some_empty .o sq winPatterns m hw
    | none =>
      rw [hw] at h
      cases hb : getBlockingMove sq with
      | some b =>
        rw [hb] at h
        cases h
        exact findTwoAndEmpty_some_empty .x sq winPatterns m hb
      | none =>
        rw [hb] at h
        exact getRandomMove_some_empty rnd sq m h

theorem selectMove_none_iff (d : Difficulty) (rnd : RandSrc) (sq : Board) :
    (selectMove d rnd sq).1 = none ↔ ∀ i, sq i ≠ .empty := by
  constructor
  · intro h
    rw [← getRandomMove_none_iff rnd sq]
    cases d with
    | easy => exact h
    | medium =>
      simp only [selectMove, orElseRnd] at h
      cases hb : getBlockingMove sq with
      | some b => rw [hb] at h; cases h
      | none => rw [hb] at h; exact h
    | hard =>
      simp only [selectMove, orElseRnd] at h
      cases hw : getWinningMove sq with
      | some w => rw [hw] at h; cases h
      | none =>
        rw [hw] at h
        cases hb : getBlockingMove sq with
        | some b => rw [hb] at h; cases h
        | none => rw [hb] at h; exact h
  · intro h
    cases hs : (selectMove d rnd sq).1 with
    | none => rfl
    | some m => exact absurd (selectMove_some_empty d rnd sq m hs) (h m)

theorem selectMove_of_empty (d : Difficulty) (rnd : RandSrc) (sq : Board)
    (h : ∃ i, sq i = .empty) :
    ∃ m rnd1, selectMove d rnd sq = (some m, rnd1) ∧ sq m = .empty := by
  rcases hsel : selectMove d rnd sq with ⟨_ | m, rnd1⟩
  · exfalso
    obtain ⟨i, hi⟩ := h
    exact (selectMove_none_iff d rnd sq).1 (by rw [hsel]) i hi
  · exact ⟨m, rnd1, rfl, selectMove_some_empty d rnd sq m (by rw [hsel])⟩

theorem isDraw_eq_false_iff (sq : Board) : isDraw sq = false ↔ ∃ i, sq i = .empty := by
  rw [← Bool.not_eq_true, isDraw_eq_true_iff]
  push_neg
  rfl

/-- Claim C11: on every board where some entry of `winPatterns` holds exactly two `x` and one
empty cell, the medium selector returns the empty cell of the first such entry, without
reading the random source; once `o` stands on that cell, no board that keeps it there has
three `x` on that entry.  On `[x, x, _, _, _, _, _, _, _]` it returns cell 2. -/
theorem medium_blocks :
    (∀ (rnd : RandSrc) (sq : Board) (k : Nat) (p : Pattern) (e : Fin 9),
      winPatterns[k]? = some p → twoAndEmpty .x sq p →
      (∀ j : Nat, j < k → ∀ q, winPatterns[j]? = some q → ¬ twoAndEmpty .x sq q) →
      e ∈ p.cells → sq e = .empty →
        getBlockingMove sq = some e ∧ selectMove .medium rnd sq = (some e, rnd) ∧
          ∀ sq2 : Board, sq2 e = Function.update sq e .o e →
            ¬ (sq2 p.1 = .x ∧ sq2 p.2.1 = .x ∧ sq2 p.2.2 = .x)) ∧
    (∀ rnd : RandSrc, selectMove .medium rnd mediumSampleBoard = (some 2, rnd)) ∧
    (∀ sq2 : Board, sq2 2 = Function.update mediumSampleBoard 2 .o 2 →
      ¬ (sq2 0 = .x ∧ sq2 1 = .x ∧ sq2 2 = .x)) := by
  refine ⟨?_, fun _ => rfl, ?_⟩
  · intro rnd sq k p e hk hp hfirst he hemp
    have hb : getBlockingMove sq = some e :=
      findTwoAndEmpty_first .x (by simp) sq winPatterns k p e hk hp hfirst he hemp
    refine ⟨hb, by simp [selectMove, orElseRnd, hb], ?_⟩
    intro sq2 h2 ⟨h3, h4, h5⟩
    rw [Function.update_same] at h2
    obtain ⟨a, b, c⟩ := p
    simp only [Pattern.cells, List.mem_cons, List.mem_singleton, List.not_mem_nil,
      or_false] at he
    rcases he with rfl | rfl | rfl
    · rw [h2] at h3; cases h3
    · rw [h2] at h4; cases h4
    · rw [h2] at h5; cases h5
  · intro sq2 h2 ⟨_, _, h5⟩
    rw [Function.update_same] at h2
    rw [h2] at h5
    cases h5

/-- Claim C11, witness: `x` on cells 0 and 3, `o` on cells 4 and 8; the first entry with two
`x` and an empty cell is the left column `[0, 3, 6]`, and the medium selector returns
cell 6. -/
theorem medium_blocks_witness :
    selectMove .medium rndZero (boardOfList [.x, .empty, .empty, .x, .o, .empty, .empty,
      .empty, .o]) = (some 6, rndZero) :=
  (medium_blocks.1 rndZero (boardOfList [.x, .empty, .empty, .x, .o, .empty, .empty,
      .empty, .o]) 3 (0, 3, 6) 6 rfl (by decide)
    (by
      intro j hj q hq
      have : j = 0 ∨ j = 1 ∨ j = 2 := by omega
      rcases this with rfl | rfl | rfl <;> (cases hq; decide))
    (by decide) rfl).2.1

/-- Claim C12: when no entry of `winPatterns` holds exactly two `o` and one empty cell, the
hard selector returns what the medium selector returns for the same random stream; when in
addition no entry holds exactly two `x` and one empty cell, both return what the easy
selector `getRandomMove` returns. -/
theorem difficulty_fall_through (rnd : RandSrc) (sq : Board)
    (ho : ∀ p, p ∈ winPatterns → ¬ twoAndEmpty .o sq p) :
    selectMove .hard rnd sq = selectMove .medium rnd sq ∧
    ((∀ p, p ∈ winPatterns → ¬ twoAndEmpty .x sq p) →
      selectMove .hard rnd sq = selectMove .easy rnd sq ∧
        selectMove .medium rnd sq = selectMove .easy rnd sq ∧
        selectMove .easy rnd sq = getRandomMove rnd sq) := by
  have hw : getWinningMove sq = none :=
    (findTwoAndEmpty_eq_none .o (by simp) sq winPatterns).2 ho
  have h1 : selectMove .hard rnd sq = selectMove .medium rnd sq := by
    simp [selectMove, orElseRnd, hw]
  refine ⟨h1, ?_⟩
  intro hx
  have hb : getBlockingMove sq = none :=
    (findTwoAndEmpty_eq_none .x (by simp) sq winPatterns).2 hx
  have h2 : selectMove .medium rnd sq = selectMove .easy rnd sq := by
    simp [selectMove, orElseRnd, hb]
  exact ⟨h1.trans h2, h2, rfl⟩

set_option maxRecDepth 8000 in
/-- Claim C12, witness: with one `x` in the centre no pattern holds a pair, and the three
selectors agree. -/
theorem difficulty_fall_through_witness :
    selectMove .hard rndZero (boardOfList [.empty, .empty, .empty, .empty, .x]) =
      selectMove .medium rndZero (boardOfList [.empty, .empty, .empty, .empty, .x]) ∧
    selectMove .hard rndZero (boardOfList [.empty, .empty, .empty, .empty, .x]) =
      selectMove .easy rndZero (boardOfList [.empty, .empty, .empty, .empty, .x]) := by
  have h := difficulty_fall_through rndZero
    (boardOfList [.empty, .empty, .empty, .empty, .x]) (by decide)
  exact ⟨h.1, (h.2 (by decide)).1⟩

/-- Claim C13, counterexample: with six empty cells and `Math.random()` returning
`0.8333333333333333`, the double product `r * 6` rounds up to `5`, so `getRandomMove`
returns the empty cell at position 5 (cell 8), whereas the floor of the exact product is 4
(cell 7). -/
theorem getRandomMove_product_rounds_up :
    (getRandomMove (fun _ => rFiveSixths) sixEmptyBoard).1 = some 8 ∧
    (availableSquares sixEmptyBoard).length = 6 ∧
    rFiveSixths.mant * 6 / 2 ^ rFiveSixths.exp = 4 ∧
    (availableSquares sixEmptyBoard)[rFiveSixths.mant * 6 / 2 ^ rFiveSixths.exp]? = some 7 ∧
    (getRandomMove (fun _ => rFiveSixths) sixEmptyBoard).1 ≠
      (availableSquares sixEmptyBoard)[rFiveSixths.mant *
        (availableSquares sixEmptyBoard).length / 2 ^ rFiveSixths.exp]? := by
  decide

/-- Claim C13, amended: `getRandomMove` returns `null` exactly when no cell is empty;
otherwise it returns an empty cell, the one at position `Math.floor(r * n)` of the `n` empty
cells taken in index order, the product being the double-precision one: that position is
below `n` and is the floor of the exact product or one more.  On a board with exactly one
empty cell it returns that cell for every `r`. -/
theorem getRandomMove_spec (rnd : RandSrc) (sq : Board) :
    ((getRandomMove rnd sq).1 = none ↔ ∀ i, sq i ≠ .empty) ∧
    (∀ i, i ∈ availableSquares sq ↔ sq i = .empty) ∧
    (availableSquares sq).Pairwise (· < ·) ∧
    ((∃ i, sq i = .empty) →
      ∃ m, getRandomMove rnd sq = (some m, rnd.next) ∧ sq m = .empty ∧
        (availableSquares sq)[floorMul (rnd 0) (availableSquares sq).length]? = some m ∧
        floorMul (rnd 0) (availableSquares sq).length < (availableSquares sq).length ∧
        (rnd 0).mant * (availableSquares sq).length / 2 ^ (rnd 0).exp ≤
          floorMul (rnd 0) (availableSquares sq).length ∧
        floorMul (rnd 0) (availableSquares sq).length ≤
          (rnd 0).mant * (availableSquares sq).length / 2 ^ (rnd 0).exp + 1) ∧
    (∀ c, sq c = .empty → (∀ j, j ≠ c → sq j ≠ .empty) →
      (getRandomMove rnd sq).1 = some c) := by
  refine ⟨getRandomMove_none_iff rnd sq, mem_availableSquares sq,
    availableSquares_pairwise sq, ?_, ?_⟩
  · intro h
    obtain ⟨m, h1, h2, h3⟩ := getRandomMove_of_empty rnd sq h
    have hne : (availableSquares sq).length ≠ 0 := by
      intro h0
      obtain ⟨i, hi⟩ := h
      exact (availableSquares_length_eq_zero sq).1 h0 i hi
    exact ⟨m, h1, h2, h3, floorMul_lt _ _ (Nat.pos_of_ne_zero hne),
      (floorMul_near_exact _ _).1, (floorMul_near_exact _ _).2⟩
  · intro c hc hothers
    obtain ⟨m, h1, h2, _⟩ := getRandomMove_of_empty rnd sq ⟨c, hc⟩
    rw [h1]
    by_cases hmc : m = c
    · rw [hmc]
    · exact absurd h2 (hothers m hmc)

theorem handleTurn_resolves (fuel : Nat) (rnd : RandSrc) (g : Game)
    (h : ¬ (g.isPlayingWithAI = true ∧ g.StatusGame = .P1)) :
    ∃ g', handleTurn (fuel + 1) rnd g = some g' ∧ Resolves g g' := by
  cases hw : checkWinner g.squares with
  | some p => exact ⟨_, handleTurn_win fuel rnd g p hw, Resolves.win g p hw⟩
  | none =>
    cases hd : isDraw g.squares with
    | true => exact ⟨_, handleTurn_draw fuel rnd g hw hd, Resolves.draw g hw hd⟩
    | false => exact ⟨_, handleTurn_toggle fuel rnd g hw hd h, Resolves.next g hw hd⟩

theorem has_won_ne_draw (name : String) : name ++ " has won" ≠ "Draw" := by
  intro h
  have := congrArg String.length h
  simp only [String.length_append] at this
  have h1 : (" has won" : String).length = 8 := by decide
  have h2 : ("Draw" : String).length = 4 := by decide
  omega

theorem Resolves.draw_signal_iff {h g : Game} (hr : Resolves h g) (hm : h.modalOpen = false) :
    (g.modalOpen = true ∧ g.modalText = "Draw") ↔
      ((∀ i, g.squares i ≠ .empty) ∧ checkWinner g.squares = none) := by
  rw [← isDraw_eq_true_iff]
  cases hr with
  | win p hw =>
    constructor
    · intro ⟨_, ht⟩
      exact absurd ht (has_won_ne_draw _)
    · intro ⟨_, hn⟩
      have : checkWinner h.squares = none := hn
      rw [hw] at this
      cases this
  | draw hw hd => exact ⟨fun _ => ⟨hd, hw⟩, fun _ => ⟨rfl, rfl⟩⟩
  | next hw hd =>
    constructor
    · intro ⟨ho, _⟩
      have : h.modalOpen = true := ho
      rw [hm] at this
      cases this
    · intro ⟨hd2, _⟩
      have : isDraw h.squares = true := hd2
      rw [hd] at this
      cases this

/-- Claim C15: on a full board without a complete line `handleTurn` opens the modal on
"Draw" and leaves board and turn as they are (no toggle, no AI move); on a full board with a
complete line it signals the win, whose text is not "Draw"; and when the modal was closed
before the call, `handleTurn` leaves it open on "Draw" exactly when the final board is full
and `checkWinner` returns `null` on it. -/
theorem draw_signalled_iff_full_without_winner :
    (∀ (fuel : Nat) (rnd : RandSrc) (g : Game),
      (∀ i, g.squares i ≠ .empty) → checkWinner g.squares = none →
        handleTurn (fuel + 1) rnd g = some (viewModal "Draw" g) ∧
        (viewModal "Draw" g).modalOpen = true ∧ (viewModal "Draw" g).modalText = "Draw" ∧
        (viewModal "Draw" g).StatusGame = g.StatusGame ∧
        (viewModal "Draw" g).squares = g.squares) ∧
    (∀ (fuel : Nat) (rnd : RandSrc) (g : Game) (p : Pattern),
      (∀ i, g.squares i ≠ .empty) → checkWinner g.squares = some p →
        handleTurn (fuel + 1) rnd g = some (endGame p g) ∧
        (endGame p g).modalText ≠ "Draw" ∧ (endGame p g).StatusGame = .Pause) ∧
    (∀ (fuel : Nat) (rnd : RandSrc) (h g : Game),
      h.modalOpen = false → handleTurn (fuel + 3) rnd h = some g →
        ((g.modalOpen = true ∧ g.modalText = "Draw") ↔
          ((∀ i, g.squares i ≠ .empty) ∧ checkWinner g.squares = none))) := by
  refine ⟨?_, ?_, ?_⟩
  · intro fuel rnd g hfull hw
    exact ⟨handleTurn_draw fuel rnd g hw ((isDraw_eq_true_iff _).2 hfull), rfl, rfl, rfl, rfl⟩
  · intro fuel rnd g p _ hw
    exact ⟨handleTurn_win fuel rnd g p hw, has_won_ne_draw _, rfl⟩
  · intro fuel rnd h g hm hg
    obtain ⟨g2, hg2, hout⟩ := handleTurn_outcome fuel rnd h
    have : g2 = g := Option.some.inj (hg2.symm.trans hg)
    subst this
    rcases hout with hres | ⟨hw, hd, _, _, hsel | ⟨m, r1, _, hres⟩⟩
    · exact hres.draw_signal_iff hm
    · obtain ⟨_, _, rfl⟩ := hsel
      exact (Resolves.next h hw hd).draw_signal_iff hm
    · exact hres.draw_signal_iff hm

/-- Claim C15, witness: the last move of a drawn two-human game, and the last move of a game
won on a full board. -/
theorem draw_signalled_iff_full_without_winner_witness :
    handleTurn 1 rndZero
        { freshGame with squares := boardOfList [.x, .o, .x, .x, .o, .o, .o, .x, .x] } =
      some (viewModal "Draw"
        { freshGame with squares := boardOfList [.x, .o, .x, .x, .o, .o, .o, .x, .x] }) ∧
    handleTurn 1 rndZero { freshGame with squares := fullWinBoard } =
      some (endGame (0, 1, 2) { freshGame with squares := fullWinBoard }) :=
  ⟨(draw_signalled_iff_full_without_winner.1 0 rndZero
      { freshGame with squares := boardOfList [.x, .o, .x, .x, .o, .o, .o, .x, .x] }
      (by decide) (by decide)).1,
    (draw_signalled_iff_full_without_winner.2.1 0 rndZero
      { freshGame with squares := fullWinBoard } (0, 1, 2) (by decide) (by decide)).1⟩

/-- Claim C16: for every difficulty and random stream, on a board with an empty cell the
selector of `makeAIMove` returns a cell that is empty; the write `move.textContent = o` puts
`o` on that cell and leaves the other eight cells as they were, and when `makeAIMove` runs
as called by `handleTurn` (turn P2) the board it leaves differs from the board it found in
that cell only.  The selectors only read the board. -/
theorem ai_write_changes_one_empty_cell (rnd : RandSrc) (g : Game)
    (h : ∃ i, g.squares i = .empty) :
    ∃ m rnd1, selectMove g.AIDifficulty rnd g.squares = (some m, rnd1) ∧
      g.squares m = .empty ∧
      (placeAIMark m g).squares m = .o ∧
      (∀ j, j ≠ m → (placeAIMark m g).squares j = g.squares j) ∧
      (∀ fuel, makeAIMove (fuel + 1) rnd g = handleTurn fuel rnd1 (placeAIMark m g)) ∧
      (g.StatusGame = .P2 → ∀ fuel, ∃ g', makeAIMove (fuel + 2) rnd g = some g' ∧
        g'.squares m = .o ∧ ∀ j, j ≠ m → g'.squares j = g.squares j) := by
  obtain ⟨m, rnd1, hsel, hm⟩ := selectMove_of_empty g.AIDifficulty rnd g.squares h
  have hframe : ∀ j, j ≠ m → (placeAIMark m g).squares j = g.squares j := by
    intro j hj
    simp [placeAIMark, Function.update_noteq hj]
  have hput : (placeAIMark m g).squares m = .o := by simp [placeAIMark]
  refine ⟨m, rnd1, hsel, hm, hput, hframe, ?_, ?_⟩
  · intro fuel
    exact makeAIMove_some fuel rnd rnd1 g m hsel
  · intro hs fuel
    have hno : ¬ ((placeAIMark m g).isPlayingWithAI = true ∧
        (placeAIMark m g).StatusGame = .P1) := by
      have : (placeAIMark m g).StatusGame = .P2 := hs
      rw [this]; simp
    obtain ⟨g', hg', hres⟩ := handleTurn_resolves fuel rnd1 (placeAIMark m g) hno
    refine ⟨g', ?_, ?_, ?_⟩
    · rw [makeAIMove_some (fuel + 1) rnd rnd1 g m hsel]
      exact hg'
    · rw [hres.frame.1]; exact hput
    · intro j hj
      rw [hres.frame.1]; exact hframe j hj

/-- Claim C16, witness: the easy AI answering the first move of a game. -/
theorem ai_write_changes_one_empty_cell_witness :
    ∃ m rnd1, selectMove .easy rndZero (boardOfList [.x]) = (some m, rnd1) ∧
      boardOfList [.x] m = .empty :=
  let ⟨m, rnd1, h1, h2, _⟩ := ai_write_changes_one_empty_cell rndZero
    { freshGame with squares := boardOfList [.x] } ⟨1, by decide⟩
  ⟨m, rnd1, h1, h2⟩

/-- Claim C17: when `handleTurn` reaches the call of `makeAIMove` (no winner, board not full,
playing against the AI, turn toggled to P2) the board has an empty cell, the selected move
is not `null` for any difficulty, and `makeAIMove` goes on to write it; a selector returns
`null` exactly on a full board, which `handleTurn` reports as a draw before any call of
`makeAIMove`. -/
theorem ai_move_never_null (fuel : Nat) (rnd : RandSrc) (g : Game)
    (hw : checkWinner g.squares = none) (hd : isDraw g.squares = false)
    (hai : g.isPlayingWithAI = true) (hs : g.StatusGame = .P1) :
    handleTurn (fuel + 2) rnd g = makeAIMove (fuel + 1) rnd (togglePlayer g) ∧
    (∃ i, (togglePlayer g).squares i = .empty) ∧
    (∃ m rnd1, selectMove (togglePlayer g).AIDifficulty rnd (togglePlayer g).squares =
        (some m, rnd1) ∧ (togglePlayer g).squares m = .empty ∧
      makeAIMove (fuel + 1) rnd (togglePlayer g) =
        handleTurn fuel rnd1 (placeAIMark m (togglePlayer g))) ∧
    (∀ (d : Difficulty) (rnd2 : RandSrc) (sq : Board),
      ((selectMove d rnd2 sq).1 = none ↔ ∀ i, sq i ≠ .empty) ∧
      ((∀ i, sq i ≠ .empty) → ∀ (f : Nat) (g2 : Game), g2.squares = sq →
        handleTurn (f + 1) rnd2 g2 = some (viewModal "Draw" g2) ∨
          ∃ p, handleTurn (f + 1) rnd2 g2 = some (endGame p g2))) := by
  have hemp : ∃ i, (togglePlayer g).squares i = .empty := (isDraw_eq_false_iff _).1 hd
  obtain ⟨m, rnd1, hsel, hm⟩ :=
    selectMove_of_empty (togglePlayer g).AIDifficulty rnd (togglePlayer g).squares hemp
  refine ⟨handleTurn_ai (fuel + 1) rnd g hw hd hai hs, hemp,
    ⟨m, rnd1, hsel, hm, makeAIMove_some fuel rnd rnd1 _ m hsel⟩, ?_⟩
  intro d rnd2 sq
  refine ⟨selectMove_none_iff d rnd2 sq, ?_⟩
  intro hfull f g2 hsq
  subst hsq
  cases hw2 : checkWinner g2.squares with
  | some p => exact Or.inr ⟨p, handleTurn_win f rnd2 g2 p hw2⟩
  | none => exact Or.inl (handleTurn_draw f rnd2 g2 hw2 ((isDraw_eq_true_iff _).2 hfull))

/-- Claim C17, witness: the human has opened a game against the AI on cell 0. -/
theorem ai_move_never_null_witness :
    ∃ m rnd1, selectMove .easy rndZero (boardOfList [.x]) = (some m, rnd1) ∧
      boardOfList [.x] m = .empty :=
  let ⟨_, _, ⟨m, rnd1, h1, h2, _⟩, _⟩ := ai_move_never_null 0 rndZero
    { freshGame with isPlayingWithAI := true, squares := boardOfList [.x] }
    (by decide) (by decide) rfl rfl
  ⟨m, rnd1, h1, h2⟩

theorem sameMark_update_mem (sq : Board) (m : Fin 9) (c : Cell) (p : Pattern)
    (hn : ¬ sameMark sq p) (hs : sameMark (Function.update sq m c) p) : m ∈ p.cells := by
  unfold sameMark at hn hs
  unfold Pattern.cells
  by_cases h1 : p.1 = m
  · simp [h1]
  · by_cases h2 : p.2.1 = m
    · simp [h2]
    · by_cases h3 : p.2.2 = m
      · simp [h3]
      · simp only [Function.update_noteq h1, Function.update_noteq h2,
          Function.update_noteq h3] at hs
        exact absurd hs hn

theorem lines_through_new_cell (sq : Board) (m : Fin 9) (c : Cell)
    (hn : checkWinner sq = none) (p : Pattern) (hp : p ∈ winPatterns)
    (hs : sameMark (Function.update sq m c) p) :
    m ∈ p.cells ∧ Function.update sq m c p.1 = Function.update sq m c m := by
  have hnot := (checkWinner_none_iff sq).1 hn p hp
  refine ⟨sameMark_update_mem sq m c p hnot hs, ?_⟩
  rw [sameMark_update sq m c p hnot hs, Function.update_same]

/-- The complete lines of a reachable board share a cell, the last one written. -/
theorem Reachable.lines_share_cell {g : Game} (hr : Reachable g) :
    ∃ c, ∀ p, p ∈ winPatterns → sameMark g.squares p →
      c ∈ p.cells ∧ g.squares p.1 = g.squares c := by
  have hempty : ∀ sq : Board, checkWinner sq = none →
      ∃ c : Fin 9, ∀ p, p ∈ winPatterns → sameMark sq p → c ∈ p.cells ∧ sq p.1 = sq c :=
    fun sq hn => ⟨0, fun p hp hs => absurd hs ((checkWinner_none_iff sq).1 hn p hp)⟩
  induction hr with
  | start g hv =>
    rw [startGame_of_valid g hv]
    exact hempty _ checkWinner_empty
  | click rnd i g g' hreach hc ih =>
    rcases click_cases rnd i g with ⟨hrej, _⟩ | ⟨hacc, h1, _, _⟩
    · rw [hrej] at hc
      cases hc
      exact ih
    · obtain ⟨g2, hg2, hout⟩ := handleTurn_outcome 0 rnd (placeMark i g)
      rw [hacc] at hc
      have : g2 = g' := Option.some.inj (hg2.symm.trans hc)
      subst this
      have hopen : checkWinner g.squares = none := by
        rcases hreach.invariant.1 with h | h
        · exact absurd h h1
        · exact h
      rcases hout with hres | ⟨hw, _, _, _, hsel | ⟨m, r1, _, hres⟩⟩
      · refine ⟨i, fun p hp hs => ?_⟩
        rw [hres.frame.1] at hs ⊢
        exact lines_through_new_cell g.squares i _ hopen p hp hs
      · obtain ⟨_, _, rfl⟩ := hsel
        exact hempty _ hw
      · refine ⟨m, fun p hp hs => ?_⟩
        rw [hres.frame.1] at hs ⊢
        exact lines_through_new_cell (placeMark i g).squares m .o hw p hp hs
  | reset restart g _ _ =>
    cases restart
    · exact hempty _ checkWinner_empty
    · exact hempty _ checkWinner_empty

/-- Claim C14, counterexample: the two-human game 0, 3, 1, 4, 5, 6, 8, 7, 2 (marks placed
alternately on empty cells, no line complete before the last move) ends on a board where
both `[0, 1, 2]` and `[2, 5, 8]` are complete; `checkWinner` returns the first of them. -/
theorem two_lines_complete_on_reachable_board :
    Reachable doubleLineGame ∧
    clicks [(rndZero, 0), (rndZero, 3), (rndZero, 1), (rndZero, 4), (rndZero, 5),
      (rndZero, 6), (rndZero, 8), (rndZero, 7), (rndZero, 2)] (startGame menuGame) =
        some doubleLineGame ∧
    checkWinner beforeDoubleLine.squares = none ∧
    (0, 1, 2) ∈ winPatterns ∧ (2, 5, 8) ∈ winPatterns ∧
    sameMark doubleLineGame.squares (0, 1, 2) ∧ sameMark doubleLineGame.squares (2, 5, 8) ∧
    checkWinner doubleLineGame.squares = some (0, 1, 2) := by
  have h0 : Reachable (startGame menuGame) := Reachable.start menuGame (by decide)
  have h1 := Reachable.click rndZero 0 _ (togglePlayer (placeMark 0 (startGame menuGame))) h0 rfl
  have h2 := Reachable.click rndZero 3 _ (togglePlayer (placeMark 3 _)) h1 rfl
  have h3 := Reachable.click rndZero 1 _ (togglePlayer (placeMark 1 _)) h2 rfl
  have h4 := Reachable.click rndZero 4 _ (togglePlayer (placeMark 4 _)) h3 rfl
  have h5 := Reachable.click rndZero 5 _ (togglePlayer (placeMark 5 _)) h4 rfl
  have h6 := Reachable.click rndZero 6 _ (togglePlayer (placeMark 6 _)) h5 rfl
  have h7 := Reachable.click rndZero 8 _ (togglePlayer (placeMark 8 _)) h6 rfl
  have h8 : Reachable beforeDoubleLine :=
    Reachable.click rndZero 7 _ (togglePlayer (placeMark 7 _)) h7 rfl
  have h9 : Reachable doubleLineGame := Reachable.click rndZero 2 _ _ h8 rfl
  exact ⟨h9, rfl, by decide, by decide, by decide, by decide, by decide, by decide⟩

/-- Claim C14, amended: on every board reached from `startGame` by clicks (with their AI
replies) and resets, all complete entries of `winPatterns` pass through one common cell and
hold the same mark, so the first-match rule of `checkWinner` can only decide which of the
complete entries is returned, never whose line it is. -/
theorem reachable_lines_share_cell_and_mark (g : Game) (hr : Reachable g) :
    (∃ c, ∀ p, p ∈ winPatterns → sameMark g.squares p →
      c ∈ p.cells ∧ g.squares p.1 = g.squares c) ∧
    (∀ p q, p ∈ winPatterns → sameMark g.squares p → checkWinner g.squares = some q →
      sameMark g.squares q ∧ g.squares p.1 = g.squares q.1) := by
  obtain ⟨c, hc⟩ := hr.lines_share_cell
  refine ⟨⟨c, hc⟩, ?_⟩
  intro p q hp hs hq
  obtain ⟨hqm, hqs⟩ := checkWinner_some _ q hq
  exact ⟨hqs, (hc p hp hs).2.trans (hc q hqm hqs).2.symm⟩

/-- Claim C14, witness: the board with two complete lines. -/
theorem reachable_lines_share_cell_and_mark_witness :
    doubleLineGame.squares (2, 5, 8).1 = doubleLineGame.squares (0, 1, 2).1 := by
  have h0 : Reachable (startGame menuGame) := Reachable.start menuGame (by decide)
  have h1 := Reachable.click rndZero 0 _ (togglePlayer (placeMark 0 (startGame menuGame))) h0 rfl
  have h2 := Reachable.click rndZero 3 _ (togglePlayer (placeMark 3 _)) h1 rfl
  have h3 := Reachable.click rndZero 1 _ (togglePlayer (placeMark 1 _)) h2 rfl
  have h4 := Reachable.click rndZero 4 _ (togglePlayer (placeMark 4 _)) h3 rfl
  have h5 := Reachable.click rndZero 5 _ (togglePlayer (placeMark 5 _)) h4 rfl
  have h6 := Reachable.click rndZero 6 _ (togglePlayer (placeMark 6 _)) h5 rfl
  have h7 := Reachable.click rndZero 8 _ (togglePlayer (placeMark 8 _)) h6 rfl
  have h8 : Reachable beforeDoubleLine :=
    Reachable.click rndZero 7 _ (togglePlayer (placeMark 7 _)) h7 rfl
  have h9 : Reachable doubleLineGame := Reachable.click rndZero 2 _ _ h8 rfl
  exact ((reachable_lines_share_cell_and_mark doubleLineGame h9).2 (2, 5, 8) (0, 1, 2)
    (by decide) (by decide) (by decide)).2

theorem clicks_locked (g : Game) (hai : g.isPlayingWithAI = true) (hs : g.StatusGame = .P2)
    (evs : List (RandSrc × Fin 9)) : clicks evs g = some g := by
  induction evs with
  | nil => rfl
  | cons e rest ih =>
    obtain ⟨rnd, i⟩ := e
    have hc : click rnd i g = some g := click_rejected rnd i g (Or.inr (Or.inr ⟨hai, hs⟩))
    simp [clicks, hc, ih]

/-- Claim C18, behaviour of the code: in a game against the AI whose `nextStarter` is P2 (as
it is after every `startGame`), `resetGame(true)` leaves an empty board with the turn on P2
and never calls `makeAIMove`; every click is then rejected, so the open game cannot
proceed.  From `vsAIMenu`: `startGame` gives the turn to P1, `resetGame(true)` to P2. -/
theorem restart_against_ai_locks_human :
    (∀ g : Game, g.isPlayingWithAI = true → g.nextStarter = .P2 →
      (resetGame true g).isPlayingWithAI = true ∧ (resetGame true g).StatusGame = .P2 ∧
      (∀ i, (resetGame true g).squares i = .empty) ∧
      checkWinner (resetGame true g).squares = none ∧
      (∀ (rnd : RandSrc) (i : Fin 9), click rnd i (resetGame true g) = some (resetGame true g)) ∧
      (∀ evs : List (RandSrc × Fin 9), clicks evs (resetGame true g) = some (resetGame true g)) ∧
      resetGame true (resetGame true g) = resetGame true g) ∧
    (startGame vsAIMenu).StatusGame = .P1 ∧
    (startGame vsAIMenu).isPlayingWithAI = true ∧
    (startGame vsAIMenu).nextStarter = .P2 ∧
    (resetGame true (startGame vsAIMenu)).StatusGame = .P2 ∧
    Reachable (resetGame true (startGame vsAIMenu)) := by
  refine ⟨?_, by decide, by decide, by decide, by decide,
    Reachable.reset true _ (Reachable.start vsAIMenu (by decide))⟩
  intro g hai hn
  have h1 : (resetGame true g).isPlayingWithAI = true := hai
  have h2 : (resetGame true g).StatusGame = .P2 := by
    simp [resetGame, cleanGameBoard, hn, Starter.toStatus]
  refine ⟨h1, h2, fun _ => rfl, checkWinner_empty, ?_, clicks_locked _ h1 h2, ?_⟩
  · intro rnd i
    exact click_rejected rnd i _ (Or.inr (Or.inr ⟨h1, h2⟩))
  · simp [resetGame, cleanGameBoard]

theorem handleTurn_fuel (fuel : Nat) (rnd : RandSrc) (g : Game) :
    handleTurn (fuel + 3) rnd g = handleTurn 3 rnd g := by
  cases hw : checkWinner g.squares with
  | some p => rw [handleTurn_win _ rnd g p hw, handleTurn_win 2 rnd g p hw]
  | none =>
    cases hd : isDraw g.squares with
    | true => rw [handleTurn_draw _ rnd g hw hd, handleTurn_draw 2 rnd g hw hd]
    | false =>
      by_cases hai : g.isPlayingWithAI = true ∧ g.StatusGame = .P1
      · rw [handleTurn_ai _ rnd g hw hd hai.1 hai.2, handleTurn_ai 2 rnd g hw hd hai.1 hai.2]
        rcases hsel : selectMove (togglePlayer g).AIDifficulty rnd (togglePlayer g).squares
          with ⟨_ | m, r1⟩
        · rw [makeAIMove_none _ rnd r1 _ hsel, makeAIMove_none 1 rnd r1 _ hsel]
        · rw [makeAIMove_some _ rnd r1 _ m hsel, makeAIMove_some 1 rnd r1 _ m hsel]
          have hno : ¬ ((placeAIMark m (togglePlayer g)).isPlayingWithAI = true ∧
              (placeAIMark m (togglePlayer g)).StatusGame = .P1) := by
            have : (placeAIMark m (togglePlayer g)).StatusGame = .P2 := by
              simp [placeAIMark, togglePlayer, hai.2]
            rw [this]; simp
          cases hw2 : checkWinner (placeAIMark m (togglePlayer g)).squares with
          | some p => rw [handleTurn_win _ r1 _ p hw2, handleTurn_win 0 r1 _ p hw2]
          | none =>
            cases hd2 : isDraw (placeAIMark m (togglePlayer g)).squares with
            | true => rw [handleTurn_draw _ r1 _ hw2 hd2, handleTurn_draw 0 r1 _ hw2 hd2]
            | false =>
              rw [handleTurn_toggle _ r1 _ hw2 hd2 hno, handleTurn_toggle 0 r1 _ hw2 hd2 hno]
      · rw [handleTurn_toggle _ rnd g hw hd hai, handleTurn_toggle 2 rnd g hw hd hai]

/-- Claim C20: for every state and random stream `handleTurn` returns with three levels of
calls (more fuel changes nothing) and `makeAIMove` with four; the `handleTurn` called by
`makeAIMove` after an AI move made on behalf of P2 returns without calling `makeAIMove`
again; and one click leaves the board unchanged, or adds the clicked mark, or adds the
human's `x` and one `o` on another, previously empty cell. -/
theorem click_triggers_at_most_one_ai_move (rnd : RandSrc) (i : Fin 9) (g : Game) :
    (∀ fuel, handleTurn (fuel + 3) rnd g = handleTurn 3 rnd g) ∧
    (∃ g', handleTurn 3 rnd g = some g') ∧
    (∀ fuel, ∃ g', makeAIMove (fuel + 4) rnd g = some g') ∧
    (∀ (m : Fin 9) (rnd1 : RandSrc), g.StatusGame = .P2 →
      ∃ g', handleTurn 1 rnd1 (placeAIMark m g) = some g' ∧
        g'.squares = (placeAIMark m g).squares) ∧
    (∃ g', click rnd i g = some g' ∧
      (g'.squares = g.squares ∨
        (g.squares i = .empty ∧ g'.squares = (placeMark i g).squares) ∨
        (g.squares i = .empty ∧ g.isPlayingWithAI = true ∧ g.StatusGame = .P1 ∧
          ∃ m, m ≠ i ∧ g.squares m = .empty ∧
            g'.squares = Function.update (Function.update g.squares i .x) m .o))) := by
  refine ⟨fun fuel => handleTurn_fuel fuel rnd g, ?_, ?_, ?_, ?_⟩
  · obtain ⟨g', hg', _⟩ := handleTurn_outcome 0 rnd g
    exact ⟨g', hg'⟩
  · intro fuel
    rcases hsel : selectMove g.AIDifficulty rnd g.squares with ⟨_ | m, r1⟩
    · exact ⟨g, makeAIMove_none _ rnd r1 g hsel⟩
    · obtain ⟨g', hg', _⟩ := handleTurn_outcome fuel r1 (placeAIMark m g)
      exact ⟨g', by rw [makeAIMove_some _ rnd r1 g m hsel]; exact hg'⟩
  · intro m rnd1 hs
    have hno : ¬ ((placeAIMark m g).isPlayingWithAI = true ∧
        (placeAIMark m g).StatusGame = .P1) := by
      have : (placeAIMark m g).StatusGame = .P2 := hs
      rw [this]; simp
    obtain ⟨g', hg', hres⟩ := handleTurn_resolves 0 rnd1 (placeAIMark m g) hno
    exact ⟨g', hg', hres.frame.1⟩
  · rcases click_cases rnd i g with ⟨hrej, _⟩ | ⟨hacc, _, h2, _⟩
    · exact ⟨g, hrej, Or.inl rfl⟩
    · obtain ⟨g', hg', hout⟩ := handleTurn_outcome 0 rnd (placeMark i g)
      refine ⟨g', hacc.trans hg', ?_⟩
      rcases hout with hres | ⟨_, _, hai, hst, hsel | ⟨m, r1, hsel, hres⟩⟩
      · exact Or.inr (Or.inl ⟨h2, hres.frame.1⟩)
      · obtain ⟨_, _, rfl⟩ := hsel
        exact Or.inr (Or.inl ⟨h2, rfl⟩)
      · have hP1 : g.StatusGame = .P1 := hst
        have hm : (placeMark i g).squares m = .empty :=
          selectMove_some_empty _ rnd _ m (by rw [hsel])
        have hmi : m ≠ i := by
          intro h
          subst h
          simp [placeMark, hP1] at hm
        refine Or.inr (Or.inr ⟨h2, hai, hP1, m, hmi, ?_, ?_⟩)
        · simpa [placeMark, Function.update_noteq hmi] using hm
        · rw [hres.frame.1]
          simp [placeAIMark, togglePlayer, placeMark, hP1]

theorem sameMark_iff_exists (sq : Board) (a b c : Fin 9) :
    sameMark sq (a, b, c) ↔ ∃ m, m ≠ Cell.empty ∧ sq a = m ∧ sq b = m ∧ sq c = m := by
  unfold sameMark
  constructor
  · rintro ⟨h1, _, _, h4, h5⟩
    exact ⟨sq a, h1, rfl, h4.symm, (h4.trans h5).symm⟩
  · rintro ⟨m, hm, h1, h2, h3⟩
    rw [h1, h2, h3]
    exact ⟨hm, hm, hm, rfl, rfl⟩

theorem exists_line_iff_geometricWin (sq : Board) :
    (∃ p, p ∈ winPatterns ∧ sameMark sq p) ↔ geometricWin sq := by
  have c00 : cellAt 0 0 = 0 := rfl
  have c01 : cellAt 0 1 = 1 := rfl
  have c02 : cellAt 0 2 = 2 := rfl
  have c10 : cellAt 1 0 = 3 := rfl
  have c11 : cellAt 1 1 = 4 := rfl
  have c12 : cellAt 1 2 = 5 := rfl
  have c20 : cellAt 2 0 = 6 := rfl
  have c21 : cellAt 2 1 = 7 := rfl
  have c22 : cellAt 2 2 = 8 := rfl
  unfold geometricWin
  simp only [winPatterns, List.mem_cons, List.mem_singleton, List.not_mem_nil, or_false,
    Fin.exists_fin_succ, Fin.forall_fin_succ, IsEmpty.forall_iff, IsEmpty.exists_iff,
    or_and_right, exists_or, exists_eq_left, sameMark_iff_exists]
  simp only [Fin.succ_zero_eq_one, Fin.succ_one_eq_two, c00, c01, c02, c10, c11, c12, c20,
    c21, c22]
  simp only [← exists_or, ← and_or_left]
  refine exists_congr fun m => and_congr_right fun _ => ?_
  simp only [and_true, true_implies, Fin.val_zero, Fin.val_one, Fin.val_two, Nat.reduceAdd,
    Nat.reduceEqDiff, Fin.reduceEq, false_implies, true_and]
  simp only [or_assoc]

set_option maxRecDepth 100000 in
theorem mem_winPatterns_iff_geometric (a b c : Fin 9) :
    (a, b, c) ∈ winPatterns ↔
      a < b ∧ b < c ∧
        ((a.val / 3 = b.val / 3 ∧ b.val / 3 = c.val / 3) ∨
          (a.val % 3 = b.val % 3 ∧ b.val % 3 = c.val % 3) ∨
          (a.val / 3 = a.val % 3 ∧ b.val / 3 = b.val % 3 ∧ c.val / 3 = c.val % 3) ∨
          (a.val / 3 + a.val % 3 = 2 ∧ b.val / 3 + b.val % 3 = 2 ∧
            c.val / 3 + c.val % 3 = 2)) := by
  revert a b c
  decide

set_option maxRecDepth 8000 in
/-- Claim C19: with cell index `3 * row + column`, `checkWinner` returns a pattern exactly
when some row, some column, the main diagonal or the anti-diagonal holds three identical
non-empty marks; `winPatterns` is the list of these eight lines, an index triple belongs to
it exactly when it is increasing and lies on one row, one column or one diagonal, and every
entry has three distinct indices in `0..8`. -/
theorem checkWinner_detects_geometric_lines :
    (∀ sq : Board, (checkWinner sq).isSome = true ↔ geometricWin sq) ∧
    (∀ sq : Board, checkWinner sq = none ↔ ¬ geometricWin sq) ∧
    winPatterns = geometricLines ∧
    winPatterns.length = 8 ∧ winPatterns.Nodup ∧
    (∀ a b c : Fin 9, (a, b, c) ∈ winPatterns ↔
      a < b ∧ b < c ∧
        ((a.val / 3 = b.val / 3 ∧ b.val / 3 = c.val / 3) ∨
          (a.val % 3 = b.val % 3 ∧ b.val % 3 = c.val % 3) ∨
          (a.val / 3 = a.val % 3 ∧ b.val / 3 = b.val % 3 ∧ c.val / 3 = c.val % 3) ∨
          (a.val / 3 + a.val % 3 = 2 ∧ b.val / 3 + b.val % 3 = 2 ∧
            c.val / 3 + c.val % 3 = 2))) ∧
    (∀ p, p ∈ winPatterns →
      p.1 ≠ p.2.1 ∧ p.2.1 ≠ p.2.2 ∧ p.1 ≠ p.2.2 ∧
        p.1.val ≤ 8 ∧ p.2.1.val ≤ 8 ∧ p.2.2.val ≤ 8) := by
  have hiff : ∀ sq : Board, (checkWinner sq).isSome = true ↔ geometricWin sq := by
    intro sq
    rw [← exists_line_iff_geometricWin]
    unfold checkWinner
    rw [List.find?_isSome]
    constructor
    · rintro ⟨p, hp, hc⟩
      exact ⟨p, hp, (lineComplete_iff sq p).1 hc⟩
    · rintro ⟨p, hp, hs⟩
      exact ⟨p, hp, (lineComplete_iff sq p).2 hs⟩
  refine ⟨hiff, ?_, by decide, by decide, by decide, mem_winPatterns_iff_geometric, by decide⟩
  intro sq
  rw [← hiff]
  cases checkWinner sq <;> simp

/-- Claim C20, witness: a click in a game against the easy AI; the human's `x` on cell 0 is
answered by one `o`. -/
theorem click_triggers_at_most_one_ai_move_witness :
    ∃ g', click rndZero 0 { freshGame with isPlayingWithAI := true } = some g' ∧
      g'.squares 0 = .x ∧ g'.squares 1 = .o ∧ g'.squares 2 = .empty := by
  obtain ⟨_, _, _, _, g', h, _⟩ :=
    click_triggers_at_most_one_ai_move rndZero 0 { freshGame with isPlayingWithAI := true }
  have h2 : click rndZero 0 { freshGame with isPlayingWithAI := true } =
      some (togglePlayer (placeAIMark 1 (togglePlayer (placeMark 0
        { freshGame with isPlayingWithAI := true })))) := rfl
  rw [h2] at h
  cases h
  exact ⟨_, h2, by decide, by decide, by decide⟩

end TicTacToe
